import Mathlib

/-!
Verification of the CLPS survey-variable codebook extraction pipeline
(`extract_cdbk_pdf_answers.py`), via a shallow embedding of its data model
and per-unit extraction functions.

Conventions of the embedding:
* Python `Element` dataclass objects become a Lean structure `Element`
  (kind, left, top, width, height, text), with `right` derived as
  `left + width` exactly as the dataclass's `__post_init__` computes it.
* Fallible Python code (assertions, `None` dereferences, list indexing,
  `int`/`float` conversions) becomes `Except PyErr`, with one error
  constructor per Python exception class actually raised.
* Python `float` arithmetic on the percent column is modelled with exact
  rationals (`ℚ`); decimal literals are parsed to their exact values.
* Python's stable `sorted` is modelled by `List.insertionSort`, which has
  the same extensional behaviour (a stable sort) for a total preorder.
-/

namespace ClpsSurveyVars

/-- Element type discriminator: `Element.TEXT_TYPE` / `Element.DIVIDER_TYPE`
in the source. -/
inductive ElemType where
  | text
  | divider
deriving DecidableEq, Repr

/-- The `Element` dataclass: a positioned content box extracted from one
top-level tag.  `right`/`bottom` are derived in `__post_init__`; here they
are functions (`Element.right`, `Element.bottom`). -/
structure Element where
  elem_type : ElemType
  left : Int
  top : Int
  width : Int
  height : Int
  text : String
deriving DecidableEq, Repr

/-- Derived field `self.right = self.left + self.width` from `__post_init__`. -/
def Element.right (e : Element) : Int := e.left + e.width

/-- Derived field `self.bottom = self.top + self.height` from `__post_init__`. -/
def Element.bottom (e : Element) : Int := e.top + e.height

/-- Python exceptions raised by the extraction code. -/
inductive PyErr where
  | attr (msg : String)      -- AttributeError (e.g. `None.left`)
  | assert (msg : String)    -- AssertionError
  | value (msg : String)     -- ValueError (e.g. `int("x")`)
  | index (msg : String)     -- IndexError (e.g. `[].pop()`, `lst[1]`)
  | unitError (unit : List Element) (cause : PyErr)
      -- the wrapper `Exception(f"Unit causing error:\n\n{unit}.")` raised
      -- by the per-unit driver loop, naming the offending unit
deriving DecidableEq, Repr

/-! ### String helpers -/

/-- Prefix test `needle.isPrefixOf hay` on raw character lists, i.e. Python's
`hay.startswith(needle)`. -/
def charsPrefixOf : List Char → List Char → Bool
  | [], _ => true
  | _ :: _, [] => false
  | a :: as, b :: bs => a = b && charsPrefixOf as bs

/-- Python's substring test `needle in hay`. -/
def strContainsAux (needle : List Char) : List Char → Bool
  | [] => charsPrefixOf needle []
  | c :: rest => charsPrefixOf needle (c :: rest) || strContainsAux needle rest

/-- Python's `needle in hay` for strings. -/
def strContains (hay needle : String) : Bool :=
  strContainsAux needle.data hay.data

/-- Python's `str.split(sep)` for a one-character separator. -/
def splitOnChar (sep : Char) : List Char → List (List Char)
  | [] => [[]]
  | c :: rest =>
    if c = sep then [] :: splitOnChar sep rest
    else
      match splitOnChar sep rest with
      | [] => [[c]]
      | h :: t => (c :: h) :: t

def strSplitOnChar (sep : Char) (s : String) : List String :=
  (splitOnChar sep s.data).map String.mk

/-- Python's default `str.strip()` whitespace set (ASCII part). -/
def isPySpace (c : Char) : Bool :=
  c = ' ' ∨ c = '\t' ∨ c = '\n' ∨ c = '\r' ∨ c = '\x0b' ∨ c = '\x0c'

def trimChars (l : List Char) : List Char :=
  ((l.dropWhile isPySpace).reverse.dropWhile isPySpace).reverse

/-- Python's `str.strip()`. -/
def pyStrip (s : String) : String :=
  String.mk (trimChars s.data)

/-- Helper `split_and_strip`: split a string on newlines and strip each piece. -/
def split_and_strip (s : String) : List String :=
  (strSplitOnChar '\n' s).map pyStrip

/-- Python's `str.replace(old, new)` for a one-character `old`. -/
def replaceCharAux (old : Char) (new : List Char) : List Char → List Char
  | [] => []
  | c :: rest =>
    (if c = old then new else [c]) ++ replaceCharAux old new rest

/-- Python's `sep.join(parts)` on character lists. -/
def intercalateChars (sep : Char) : List (List Char) → List Char
  | [] => []
  | [x] => x
  | x :: y :: t => x ++ sep :: intercalateChars sep (y :: t)

/-- Python's `' '.join(parts)`. -/
def joinSpaces (parts : List String) : String :=
  String.mk (intercalateChars ' ' (parts.map String.data))

/-- The `FAULTY_CHARACTER_MAPPER` applied by `replace_characters`:
`'ﬁ' -> "fi"`, `'’' -> "'"` (insertion order of the Python dict). -/
def replaceFaultyCharacters (s : String) : String :=
  String.mk (replaceCharAux '’' ['\''] (replaceCharAux 'ﬁ' ['f', 'i'] s.data))

/-- The call `replace_characters(s, {',': ''})` used to strip thousands separators. -/
def removeCommas (s : String) : String :=
  String.mk (replaceCharAux ',' [] s.data)

/-- One scanning step of the regex `(?<=[a-z])- (?=[a-z])` deletion of
`replace_hyphenated_words`.  `prev` is the character just before the
current scan position in the original string (`none` at the start).
Matches of the 2-character pattern `"- "` cannot overlap, so `re.sub`
deletes exactly every occurrence whose lookbehind/lookahead both hold. -/
def prevIsLower : Option Char → Bool
  | some p => p.isLower
  | none => false

/-- One scanning pass over a candidate match site.  On a match the two
pattern characters are deleted and scanning resumes at the lookahead
character `c`; since `c` is lowercase (hence not `'-'`) it is emitted
directly.  On a failed match the scan emits `'-'`, `' '` and `c`: no new
match can start at `' '` or at `c` (their `prev` characters `'-'` and
`' '` are not lowercase), so this is the same as advancing one character
at a time. -/
def dehyphAux (prev : Option Char) : List Char → List Char
  | '-' :: ' ' :: c :: rest' =>
    if prevIsLower prev && c.isLower then
      c :: dehyphAux (some c) rest'
    else
      '-' :: ' ' :: c :: dehyphAux (some c) rest'
  | a :: rest => a :: dehyphAux (some a) rest
  | [] => []

/-- Function `replace_hyphenated_words`: delete each `"- "` that sits between two
lowercase letters (`re.sub(r"(?<=[a-z])- (?=[a-z])", "", s)`). -/
def replace_hyphenated_words (s : String) : String :=
  String.mk (dehyphAux none s.data)

/-! ### Unit grouping (`group_elements`) -/

/-- The loop body of `group_elements`, carrying the accumulated `units`
and the open `current_unit`. -/
def groupElementsGo (units : List (List Element)) (current : List Element) :
    List Element → List (List Element)
  | [] => units
  | e :: rest =>
    if e.elem_type = ElemType.divider then
      groupElementsGo (units ++ [current]) [] rest
    else
      groupElementsGo units (current ++ [e]) rest

/-- Function `group_elements`: split the ordered element stream into units at
divider elements.  Note the source returns `units` without appending the
final open `current_unit`. -/
def group_elements (elements : List Element) : List (List Element) :=
  groupElementsGo [] [] elements

/-- Number of divider elements in a list. -/
def countDividers (l : List Element) : Nat :=
  l.countP (fun e => e.elem_type = ElemType.divider)

theorem groupElementsGo_append (units : List (List Element)) (current : List Element)
    (l : List Element) :
    groupElementsGo units current l = units ++ groupElementsGo [] current l := by
  induction l generalizing units current with
  | nil => simp [groupElementsGo]
  | cons e rest ih =>
    by_cases h : e.elem_type = ElemType.divider
    · rw [groupElementsGo, if_pos h, groupElementsGo, if_pos h]
      simp only [List.nil_append]
      rw [ih (units ++ [current]), ih [current]]
      simp
    · rw [groupElementsGo, if_neg h, groupElementsGo, if_neg h, ih units]

theorem groupElementsGo_length (units : List (List Element)) (current : List Element)
    (l : List Element) :
    (groupElementsGo units current l).length = units.length + countDividers l := by
  induction l generalizing units current with
  | nil => simp [groupElementsGo, countDividers]
  | cons e rest ih =>
    by_cases h : e.elem_type = ElemType.divider
    · rw [groupElementsGo, if_pos h, ih]
      simp [countDividers, List.countP_cons, h]
      omega
    · rw [groupElementsGo, if_neg h, ih]
      simp [countDividers, List.countP_cons, h]

theorem groupElementsGo_no_divider (units : List (List Element)) (current : List Element)
    (l : List Element) (h : ∀ e ∈ l, e.elem_type ≠ ElemType.divider) :
    groupElementsGo units current l = units := by
  induction l generalizing current with
  | nil => rfl
  | cons e rest ih =>
    rw [groupElementsGo, if_neg (h e (by simp))]
    exact ih _ fun x hx => h x (by simp [hx])

theorem groupElementsGo_split (current pre : List Element) (d : Element)
    (rest : List Element) (hpre : ∀ e ∈ pre, e.elem_type ≠ ElemType.divider)
    (hd : d.elem_type = ElemType.divider) :
    groupElementsGo [] current (pre ++ d :: rest) =
      (current ++ pre) :: groupElementsGo [] [] rest := by
  induction pre generalizing current with
  | nil =>
    rw [List.nil_append, groupElementsGo, if_pos hd, groupElementsGo_append]
    simp
  | cons p ps ih =>
    rw [List.cons_append, groupElementsGo, if_neg (hpre p (by simp)),
      ih _ fun x hx => hpre x (by simp [hx])]
    simp

/-- A sample text element used in concrete counterexamples. -/
def sampleText : Element :=
  { elem_type := ElemType.text, left := 100, top := 100, width := 30,
    height := 10, text := "sample" }

/-- C1 counterexample: a one-element sequence with no dividers produces
zero units, not one: the final open unit is never emitted. -/
theorem group_elements_no_divider_counterexample :
    countDividers [sampleText] = 0 ∧ (group_elements [sampleText]).length ≠ 1 := by
  constructor
  · rfl
  · decide

/-- C1 (amended): each divider closes the current accumulating unit
(appending it even if empty) and starts a new one, text elements
accumulate into the open unit, but the final open unit after the last
divider is discarded rather than emitted; consequently the number of
units always equals the number of dividers (in particular, zero units
for a divider-free sequence). -/
theorem group_elements_spec :
    (∀ l : List Element, (group_elements l).length = countDividers l) ∧
    (∀ l : List Element, (∀ e ∈ l, e.elem_type ≠ ElemType.divider) →
      group_elements l = []) ∧
    (∀ (pre : List Element) (d : Element) (rest : List Element),
      (∀ e ∈ pre, e.elem_type ≠ ElemType.divider) →
      d.elem_type = ElemType.divider →
      group_elements (pre ++ d :: rest) = pre :: group_elements rest) := by
  refine ⟨fun l => ?_, fun l h => ?_, fun pre d rest hpre hd => ?_⟩
  · rw [group_elements, groupElementsGo_length]; simp
  · exact groupElementsGo_no_divider [] [] l h
  · rw [group_elements, groupElementsGo_split [] pre d rest hpre hd]
    simp [group_elements]

/-- Witness for `group_elements_spec`: concrete runs discharging its
hypotheses. -/
theorem group_elements_spec_witness :
    group_elements [sampleText] = [] ∧
    group_elements
        [sampleText,
         { elem_type := ElemType.divider, left := 36, top := 200, width := 500,
           height := 0, text := "" }] = [[sampleText]] := by
  constructor
  · exact group_elements_spec.2.1 [sampleText] (by decide)
  · have h := group_elements_spec.2.2 [sampleText]
      { elem_type := ElemType.divider, left := 36, top := 200, width := 500,
        height := 0, text := "" } [] (by decide) (by decide)
    simpa using h


/-! ### Dehyphenation (`replace_hyphenated_words`) -/

theorem isLower_ne_dash {c : Char} (h : c.isLower = true) : c ≠ '-' := by
  intro he; subst he; simp at h

theorem isLower_ne_space {c : Char} (h : c.isLower = true) : c ≠ ' ' := by
  intro he; subst he; simp at h

theorem dehyphAux_nil (p : Option Char) : dehyphAux p [] = [] := by
  rw [dehyphAux.eq_def]

/-- Unfolding of `dehyphAux` at a candidate match site. -/
theorem dehyphAux_pattern (p : Option Char) (c : Char) (r : List Char) :
    dehyphAux p ('-' :: ' ' :: c :: r) =
      if (prevIsLower p && c.isLower) = true then c :: dehyphAux (some c) r
      else '-' :: ' ' :: c :: dehyphAux (some c) r := by
  rw [dehyphAux.eq_def]
  split
  · rename_i c' r' heq
    rw [List.cons.injEq, List.cons.injEq, List.cons.injEq] at heq
    obtain ⟨-, -, hc, hr⟩ := heq
    subst hc; subst hr
    rfl
  · rename_i a' r' hne heq
    rw [List.cons.injEq] at heq
    exact ((hne c r heq.1.symm heq.2.symm)).elim
  · rename_i heq; simp at heq

/-- Unfolding of `dehyphAux` when the three leading characters do not
form the deletion pattern. -/
theorem dehyphAux_default (p : Option Char) (a : Char) (r : List Char)
    (h : ∀ (c : Char) (r' : List Char), a = '-' → r = ' ' :: c :: r' → False) :
    dehyphAux p (a :: r) = a :: dehyphAux (some a) r := by
  rw [dehyphAux.eq_def]
  split
  · rename_i c' r' heq
    rw [List.cons.injEq] at heq
    exact (h c' r' heq.1 heq.2).elim
  · rename_i a' r' hne heq
    rw [List.cons.injEq] at heq
    obtain ⟨ha, hr⟩ := heq
    subst ha; subst hr
    rfl
  · rename_i heq; simp at heq

/-- The output of a scan starting at a character `b` begins with `b`
itself or with a lowercase character (the lookahead of a deleted match). -/
theorem dehyphAux_head (p : Option Char) (b : Char) (r : List Char) :
    ∃ h t, dehyphAux p (b :: r) = h :: t ∧ (h = b ∨ h.isLower = true) := by
  by_cases hb : b = '-'
  · subst hb
    rcases r with _ | ⟨b2, r2⟩
    · exact ⟨'-', _,
        dehyphAux_default p '-' [] (by intro c r' _ h2; simp at h2), Or.inl rfl⟩
    · by_cases hb2 : b2 = ' '
      · subst hb2
        rcases r2 with _ | ⟨c, r3⟩
        · exact ⟨'-', _,
            dehyphAux_default p '-' [' '] (by intro c r' _ h2; simp at h2),
            Or.inl rfl⟩
        · rw [dehyphAux_pattern]
          by_cases hcond : (prevIsLower p && c.isLower) = true
          · rw [if_pos hcond]
            exact ⟨c, _, rfl, Or.inr ((Bool.and_eq_true _ _).mp hcond).2⟩
          · rw [if_neg hcond]
            exact ⟨'-', _, rfl, Or.inl rfl⟩
      · rw [dehyphAux_default p '-' (b2 :: r2)
          (by intro c r' _ h2; rw [List.cons.injEq] at h2; exact hb2 h2.1)]
        exact ⟨'-', _, rfl, Or.inl rfl⟩
  · rw [dehyphAux_default p b r (fun c r' h1 _ => hb h1)]
    exact ⟨b, _, rfl, Or.inl rfl⟩

theorem dehyphAux_idem_bounded :
    ∀ (n : Nat) (l : List Char), l.length ≤ n → ∀ (p : Option Char),
      dehyphAux p (dehyphAux p l) = dehyphAux p l := by
  intro n
  induction n with
  | zero =>
    intro l hl p
    have : l = [] := List.length_eq_zero.mp (Nat.le_zero.mp hl)
    subst this
    rfl
  | succ n ih =>
    intro l hl p
    rcases l with _ | ⟨a, r⟩
    · rfl
    by_cases ha : a = '-'
    · subst ha
      rcases r with _ | ⟨b, r2⟩
      · have h1 : ∀ q : Option Char, dehyphAux q ['-'] = ['-'] := by
          intro q
          rw [dehyphAux_default q '-' [] (by intro c r' _ h2; simp at h2),
            dehyphAux_nil]
        rw [h1 p, h1 p]
      by_cases hb : b = ' '
      · subst hb
        rcases r2 with _ | ⟨c, r3⟩
        · have h1 : ∀ q : Option Char, dehyphAux q ['-', ' '] = ['-', ' '] := by
            intro q
            rw [dehyphAux_default q '-' [' '] (by intro c r' _ h2; simp at h2),
              dehyphAux_default (some '-') ' ' []
                (by intro c r' h1 _; exact absurd h1 (by decide)),
              dehyphAux_nil]
          rw [h1 p, h1 p]
        · rw [dehyphAux_pattern]
          by_cases hcond : (prevIsLower p && c.isLower) = true
          · rw [if_pos hcond]
            have hc : c.isLower = true := ((Bool.and_eq_true _ _).mp hcond).2
            rw [dehyphAux_default p c _ (fun c' r' h1 _ => isLower_ne_dash hc h1),
              ih r3 (by simp at hl; omega) (some c)]
          · rw [if_neg hcond, dehyphAux_pattern, if_neg hcond,
              ih r3 (by simp at hl; omega) (some c)]
      · rw [dehyphAux_default p '-' (b :: r2)
          (by intro c r' _ h2; rw [List.cons.injEq] at h2; exact hb h2.1)]
        obtain ⟨h, t, hx, hh⟩ := dehyphAux_head (some '-') b r2
        rw [hx]
        have hh' : h ≠ ' ' := by
          rcases hh with h1 | h2
          · rw [h1]; exact hb
          · exact isLower_ne_space h2
        rw [dehyphAux_default p '-' (h :: t)
          (by intro c r' _ h2; rw [List.cons.injEq] at h2; exact hh' h2.1),
          ← hx, ih (b :: r2) (by simp at hl ⊢; omega) (some '-')]
    · rw [dehyphAux_default p a r (fun c r' h1 _ => ha h1)]
      rcases r with _ | ⟨b, r2⟩
      · rw [dehyphAux_nil,
          dehyphAux_default p a [] (by intro c r' _ h2; simp at h2),
          dehyphAux_nil]
      · obtain ⟨h, t, hx, hh⟩ := dehyphAux_head (some a) b r2
        rw [hx, dehyphAux_default p a (h :: t) (fun c r' h1 _ => ha h1),
          ← hx, ih (b :: r2) (by simp at hl ⊢; omega) (some a)]

theorem dehyphAux_idem (l : List Char) (p : Option Char) :
    dehyphAux p (dehyphAux p l) = dehyphAux p l :=
  dehyphAux_idem_bounded l.length l le_rfl p

/-- C6: dehyphenation deletes a `"- "` sandwiched between two lowercase
letters, leaves it alone before a capital (witnessed by the spec's two
examples and by the general one-occurrence laws), and is idempotent. -/
theorem replace_hyphenated_words_spec :
    replace_hyphenated_words "conclu- sion" = "conclusion" ∧
    replace_hyphenated_words "you- Bought" = "you- Bought" ∧
    (∀ (p c : Char), p.isLower = true → c.isLower = true →
      replace_hyphenated_words (String.mk [p, '-', ' ', c]) = String.mk [p, c]) ∧
    (∀ (p c : Char), p.isLower = true → c.isLower = false →
      replace_hyphenated_words (String.mk [p, '-', ' ', c]) =
        String.mk [p, '-', ' ', c]) ∧
    (∀ s : String, replace_hyphenated_words (replace_hyphenated_words s) =
      replace_hyphenated_words s) := by
  refine ⟨by decide, by decide, fun p c hp hc => ?_, fun p c hp hc => ?_,
    fun s => congrArg String.mk ?_⟩
  · show String.mk (dehyphAux none (p :: '-' :: ' ' :: c :: [])) = _
    rw [dehyphAux_default none p _ (fun c' r' h1 _ => isLower_ne_dash hp h1),
      dehyphAux_pattern, if_pos (by simp [prevIsLower, hp, hc]), dehyphAux_nil]
  · show String.mk (dehyphAux none (p :: '-' :: ' ' :: c :: [])) = _
    rw [dehyphAux_default none p _ (fun c' r' h1 _ => isLower_ne_dash hp h1),
      dehyphAux_pattern, if_neg (by simp [prevIsLower, hc]), dehyphAux_nil]
  · exact dehyphAux_idem s.data none

/-- Witness for `replace_hyphenated_words_spec`: instantiate the general
one-occurrence laws at concrete characters. -/
theorem replace_hyphenated_words_spec_witness :
    replace_hyphenated_words (String.mk ['u', '-', ' ', 's']) = String.mk ['u', 's'] ∧
    replace_hyphenated_words (String.mk ['u', '-', ' ', 'B']) =
      String.mk ['u', '-', ' ', 'B'] :=
  ⟨replace_hyphenated_words_spec.2.2.1 'u' 's' (by decide) (by decide),
   replace_hyphenated_words_spec.2.2.2.1 'u' 'B' (by decide) (by decide)⟩

/-! ### Element ordering (the two `sorted` passes at lines 233-234) -/

/-- The key of the first sorting pass: `key=lambda e: int(e.left)`. -/
def leftLe (a b : Element) : Prop := a.left ≤ b.left

/-- The key of the second sorting pass: `key=lambda e: int(e.top)`. -/
def topLe (a b : Element) : Prop := a.top ≤ b.top

/-- Non-strict lexicographic order on `(top, left)`, the reading order the
spec describes. -/
def lexLe (a b : Element) : Prop :=
  a.top < b.top ∨ (a.top = b.top ∧ a.left ≤ b.left)

instance : DecidableRel leftLe := fun a b => inferInstanceAs (Decidable (_ ≤ _))

instance : DecidableRel topLe := fun a b => inferInstanceAs (Decidable (_ ≤ _))

instance : IsTotal Element topLe := ⟨fun a b => le_total a.top b.top⟩

instance : IsTrans Element topLe := ⟨fun _ _ _ h1 h2 => le_trans h1 h2⟩

instance : IsTotal Element leftLe := ⟨fun a b => le_total a.left b.left⟩

instance : IsTrans Element leftLe := ⟨fun _ _ _ h1 h2 => le_trans h1 h2⟩

/-- The sorted element sequence:
`sorted(sorted(elements, key=left), key=top)`, Python's `sorted` being a
stable sort, modelled by `List.insertionSort`. -/
def sortElements (l : List Element) : List Element :=
  List.insertionSort topLe (List.insertionSort leftLe l)

/-- Inserting with `orderedInsert` preserves a pairwise relation `R` provided the new
element is `R`-related to everything and everything it is inserted after
is `R`-related back to it. -/
theorem pairwise_orderedInsert {r R : Element → Element → Prop} [DecidableRel r]
    (x : Element) :
    ∀ (L : List Element), L.Pairwise R → (∀ y ∈ L, R x y) →
      (∀ y, ¬r x y → R y x) → (List.orderedInsert r x L).Pairwise R := by
  intro L
  induction L with
  | nil => intro _ _ _; simpa using List.pairwise_singleton R x
  | cons b bs ih =>
    intro hL hx hxy
    rw [List.orderedInsert]
    by_cases hr : r x b
    · rw [if_pos hr]
      exact List.Pairwise.cons hx hL
    · rw [if_neg hr]
      rw [List.pairwise_cons] at hL ⊢
      refine ⟨fun y hy => ?_, ih hL.2 (fun y hy => hx y (List.mem_cons_of_mem b hy))
        hxy⟩
      rcases (List.mem_orderedInsert r).mp hy with hyx | hybs
      · subst hyx; exact hxy b hr
      · exact hL.1 y hybs

theorem pairwise_insertionSort {r R : Element → Element → Prop} [DecidableRel r]
    (hback : ∀ x y : Element, ¬r x y → R y x) :
    ∀ L : List Element, L.Pairwise R → (List.insertionSort r L).Pairwise R := by
  intro L
  induction L with
  | nil => intro _; simp
  | cons b bs ih =>
    intro hL
    rw [List.pairwise_cons] at hL
    rw [List.insertionSort]
    refine pairwise_orderedInsert b _ (ih hL.2) (fun y hy => ?_) (hback b)
    exact hL.1 y ((List.mem_insertionSort r).mp hy)

/-- Inserting `x` commutes with `filter p` when `x`, if selected by `p`,
precedes (under `r`) every selected element of the target list. -/
theorem filter_orderedInsert {r : Element → Element → Prop} [DecidableRel r]
    (p : Element → Bool) (x : Element) (L : List Element)
    (hp : p x = true → ∀ y ∈ L, p y = true → r x y) :
    (List.orderedInsert r x L).filter p = (x :: L).filter p := by
  rw [List.orderedInsert_eq_take_drop, List.filter_append]
  by_cases hx : p x = true
  · rw [List.filter_cons_of_pos hx, List.filter_cons_of_pos hx]
    have htw : (L.takeWhile fun b => decide ¬r x b).filter p = [] := by
      rw [List.filter_eq_nil_iff]
      intro y hy
      have h1 := List.mem_takeWhile_imp hy
      simp only [decide_eq_true_eq] at h1
      intro hpy
      exact h1 (hp hx y (List.takeWhile_subset _ hy) hpy)
    rw [htw, List.nil_append]
    have hL : (L.takeWhile fun b => decide ¬r x b) ++
        (L.dropWhile fun b => decide ¬r x b) = L :=
      List.takeWhile_append_dropWhile _ _
    calc x :: (L.dropWhile fun b => decide ¬r x b).filter p
        = x :: ((L.takeWhile fun b => decide ¬r x b).filter p ++
            (L.dropWhile fun b => decide ¬r x b).filter p) := by rw [htw]; rfl
      _ = x :: L.filter p := by rw [← List.filter_append, hL]
  · rw [List.filter_cons_of_neg hx, List.filter_cons_of_neg hx, ← List.filter_append,
      List.takeWhile_append_dropWhile]

/-- A stable sort leaves the subsequence of any `r`-tied class untouched. -/
theorem filter_insertionSort {r : Element → Element → Prop} [DecidableRel r]
    (p : Element → Bool) (hP : ∀ a b : Element, p a = true → p b = true → r a b) :
    ∀ L : List Element, (List.insertionSort r L).filter p = L.filter p := by
  intro L
  induction L with
  | nil => rfl
  | cons b bs ih =>
    rw [List.insertionSort,
      filter_orderedInsert p b _ (fun hb y hy hpy =>
        hP b y hb hpy)]
    by_cases hb : p b = true
    · rw [List.filter_cons_of_pos hb, List.filter_cons_of_pos hb, ih]
    · rw [List.filter_cons_of_neg hb, List.filter_cons_of_neg hb, ih]

/-- C5: the two successive stable sorts (first by `left`, then by `top`)
produce a permutation of the input that is ordered lexicographically by
`(top, left)` -- smaller `top` always first, ties on `top` broken by
`left` -- and elements agreeing in both keys keep their original relative
order (the filtered subsequence of every exact key class is unchanged). -/
theorem sortElements_spec (l : List Element) :
    (sortElements l).Perm l ∧
    (sortElements l).Pairwise lexLe ∧
    (∀ t x : Int,
      (sortElements l).filter (fun e => decide (e.top = t ∧ e.left = x)) =
        l.filter (fun e => decide (e.top = t ∧ e.left = x))) := by
  refine ⟨?_, ?_, ?_⟩
  · exact (List.perm_insertionSort topLe _).trans (List.perm_insertionSort leftLe l)
  · have h1 : (sortElements l).Pairwise topLe := List.sorted_insertionSort topLe _
    have h2 : (sortElements l).Pairwise
        (fun a b => a.top = b.top → a.left ≤ b.left) := by
      refine pairwise_insertionSort (fun x y hxy => ?_) _ ?_
      · intro htops
        exact absurd (le_of_eq htops.symm) hxy
      · refine List.Pairwise.imp ?_ (List.sorted_insertionSort leftLe l)
        intro a b hab _
        exact hab
    exact (h1.and h2).imp (fun ⟨hle, him⟩ => by
      rcases lt_or_eq_of_le hle with hlt | heq
      · exact Or.inl hlt
      · exact Or.inr ⟨heq, him heq⟩)
  · intro t x
    have hTop : ∀ a b : Element, (decide (a.top = t ∧ a.left = x)) = true →
        (decide (b.top = t ∧ b.left = x)) = true → topLe a b := by
      intro a b ha hb
      rw [decide_eq_true_eq] at ha hb
      show a.top ≤ b.top
      rw [ha.1, hb.1]
    have hLeft : ∀ a b : Element, (decide (a.top = t ∧ a.left = x)) = true →
        (decide (b.top = t ∧ b.left = x)) = true → leftLe a b := by
      intro a b ha hb
      rw [decide_eq_true_eq] at ha hb
      show a.left ≤ b.left
      rw [ha.2, hb.2]
    rw [sortElements, filter_insertionSort _ hTop _, filter_insertionSort _ hLeft l]

/-! ### Label lookup and scalar field extractors -/

/-- Function `get_elem_by_text`: first element of the unit whose text contains the
given label (`None` when absent). -/
def get_elem_by_text (unit : List Element) (text : String) : Option Element :=
  match unit with
  | [] => none
  | e :: rest =>
    if strContains e.text text then some e else get_elem_by_text rest text

/-- Dereferencing the result of `get_elem_by_text`: a `None` result makes
the caller raise `AttributeError`. -/
def lookupE (unit : List Element) (text : String) : Except PyErr Element :=
  match get_elem_by_text unit text with
  | some e => .ok e
  | none => .error (.attr "NoneType object has no attribute")

/-- The assertion message of `get_variable_name`. -/
def vnErrMsg (l r t : Int) (out : List String) : String :=
  s!"Found more than one element between {l}, {r}, and within 5px of {t}.\nElements Founds:\n{out}"

/-- Function `get_variable_name`: triangulate strictly between the "Variable
Name:" and "Length:" labels, within 5px of the left label's row; exactly
one element must be found. -/
def get_variable_name (unit : List Element) : Except PyErr String :=
  match lookupE unit "Variable Name:" with
  | .error err => .error err
  | .ok left_elem =>
    match lookupE unit "Length:" with
    | .error err => .error err
    | .ok right_elem =>
      let l := left_elem.left
      let t := left_elem.top
      let r := right_elem.left
      let out := (unit.filter (fun e =>
        decide (l < e.left ∧ e.left < r ∧ t - 5 < e.top ∧ e.top < t + 5))).map
          Element.text
      match out with
      | [s] => .ok s
      | _ => .error (.assert (vnErrMsg l r t out))

/-- Common body of `get_length` and `get_position`:
`get_elem_by_text(unit, label).text.split(':')[1].strip()`. -/
def getFieldAfterColon (unit : List Element) (label : String) :
    Except PyErr String :=
  match lookupE unit label with
  | .error err => .error err
  | .ok e =>
    match (strSplitOnChar ':' e.text).get? 1 with
    | some s => .ok (pyStrip s)
    | none => .error (.index "list index out of range")

def get_length (unit : List Element) : Except PyErr String :=
  getFieldAfterColon unit "Length:"

def get_position (unit : List Element) : Except PyErr String :=
  getFieldAfterColon unit "Position:"

/-- The shared text cleanup tail of `get_middle_section` and
`get_middle_section_broad`: join with spaces, substitute faulty
characters, re-join the newline-split-and-stripped pieces, and remove
hyphenation artifacts. -/
def middleCleanup (parts : List String) : String :=
  replace_hyphenated_words
    (joinSpaces (split_and_strip (replaceFaultyCharacters (joinSpaces parts))))

/-- Function `get_middle_section` (with the default `top_tol = bottom_buffer = 10`
used at every call site): collect the texts of elements inside the
vertical band and the narrow column window `178 ± 5`. -/
def get_middle_section (unit : List Element) (top bottom : String) :
    Except PyErr String :=
  match lookupE unit top with
  | .error err => .error err
  | .ok te =>
    match lookupE unit bottom with
    | .error err => .error err
    | .ok be =>
      let t := te.top - 10
      let b := be.top - 10
      let out := (unit.filter (fun e =>
        decide (t < e.top ∧ e.top < b ∧ 173 < e.left ∧ e.left < 183))).map
          Element.text
      .ok (middleCleanup out)

/-- The synthetic per-line elements created by `get_middle_section_broad`
for an element whose text spans several lines (each line offset by
`i * 10`). -/
def splitPieces (e : Element) : List Element :=
  (strSplitOnChar '\n' e.text).enum.map (fun p =>
    { elem_type := e.elem_type, left := e.left, top := e.top + (p.1 : Int) * 10,
      width := e.width, height := e.height, text := pyStrip p.2 })

/-- One iteration of the multiline-splitting loop: remove the first
occurrence of `e` and append its per-line pieces. -/
def splitLinesStep (acc : List Element) (e : Element) : List Element :=
  if strContains e.text "\n" then acc.erase e ++ splitPieces e else acc

/-- The multiline-splitting loop of `get_middle_section_broad`, iterating
over a snapshot (`deepcopy`) of the collected list while mutating it. -/
def splitMultilines (out : List Element) : List Element :=
  out.foldl splitLinesStep out

/-- Python's `min(lst, key=lambda x: abs(x.top - t))`: first element
attaining the minimal key. -/
def pyMinByAbsTop (l : List Element) (t : Int) : Option Element :=
  match l with
  | [] => none
  | x :: rest =>
    some (rest.foldl (fun best y =>
      if (y.top - t).natAbs < (best.top - t).natAbs then y else best) x)

/-- The re-alignment loop of `get_middle_section_broad` (lines 515-521):
for each element not in the left-aligned window `178 ± 5`, reset its top
to the top of `min(out_copy, key=lambda x: abs(x.top - e.top))`.  Note
the minimum ranges over the whole snapshot, not merely the left-aligned
elements. -/
def realignTops (out : List Element) : List Element :=
  out.map (fun e =>
    if 173 < e.left ∧ e.left < 183 then e
    else
      match pyMinByAbsTop out e.top with
      | some c => { e with top := c.top }
      | none => e)

instance : DecidableRel lexLe := fun a b =>
  inferInstanceAs (Decidable (_ ∨ _))

/-- Function `get_middle_section_broad` (question-text variant): widen the window
to `(173, 567)`, split multiline elements, re-align, re-sort by
`(top, left)` and clean up. -/
def get_middle_section_broad (unit : List Element) (top bottom : String) :
    Except PyErr String :=
  match lookupE unit top with
  | .error err => .error err
  | .ok te =>
    match lookupE unit bottom with
    | .error err => .error err
    | .ok be =>
      let t := te.top - 10
      let b := be.top - 10
      let out0 := unit.filter (fun e =>
        decide (t < e.top ∧ e.top < b ∧ 173 < e.left ∧ e.left < 567))
      let out1 := splitMultilines out0
      let out2 := realignTops out1
      let out3 := List.insertionSort lexLe out2
      .ok (middleCleanup (out3.map Element.text))

def get_question_name (unit : List Element) : Except PyErr String :=
  get_middle_section unit "Question Name:" "Concept:"

def get_concept (unit : List Element) : Except PyErr String :=
  get_middle_section unit "Concept:" "Question Text:"

def get_question_text (unit : List Element) : Except PyErr String :=
  get_middle_section_broad unit "Question Text:" "Universe:"

def get_universe (unit : List Element) : Except PyErr String :=
  get_middle_section unit "Universe:" "Note:"

def get_note (unit : List Element) : Except PyErr String :=
  get_middle_section unit "Note:" "Source:"

def get_source (unit : List Element) : Except PyErr String :=
  get_middle_section unit "Source:" "Answer Categories"

/-! ### Numeric parsing and the total check -/

/-- Value of a digit string. -/
def digitsToNat (l : List Char) : Nat :=
  l.foldl (fun acc c => acc * 10 + (c.toNat - 48)) 0

/-- Python's `int(s)` (sign and decimal digits; no underscores appear in
the extracted data). -/
def parseIntChars : List Char → Option Int
  | '+' :: ds =>
    if ds ≠ [] ∧ ds.all Char.isDigit then some (digitsToNat ds) else none
  | '-' :: ds =>
    if ds ≠ [] ∧ ds.all Char.isDigit then some (-(digitsToNat ds : Int)) else none
  | ds =>
    if ds ≠ [] ∧ ds.all Char.isDigit then some (digitsToNat ds) else none

def parseIntPy (s : String) : Except PyErr Int :=
  match parseIntChars (trimChars s.data) with
  | some n => .ok n
  | none => .error (.value s!"invalid literal for int with base 10: {s}")

/-- An exact (unnormalized) fraction, the model of Python's binary
floating-point values for the percent column.  All constructions keep the
denominator positive. -/
structure PyFloat where
  num : Int
  den : Int
deriving DecidableEq, Repr

def PyFloat.ofInt (n : Int) : PyFloat := ⟨n, 1⟩

def PyFloat.add (a b : PyFloat) : PyFloat :=
  ⟨a.num * b.den + b.num * a.den, a.den * b.den⟩

def PyFloat.sub (a b : PyFloat) : PyFloat :=
  ⟨a.num * b.den - b.num * a.den, a.den * b.den⟩

def PyFloat.absVal (a : PyFloat) : PyFloat := ⟨|a.num|, a.den⟩

/-- Comparison `a ≤ b` by cross-multiplication (valid for positive denominators). -/
def PyFloat.le (a b : PyFloat) : Prop := a.num * b.den ≤ b.num * a.den

instance : DecidableRel PyFloat.le := fun a b =>
  inferInstanceAs (Decidable (_ ≤ _))

/-- The exact rational value of a `PyFloat`. -/
def PyFloat.toRat (a : PyFloat) : ℚ := (a.num : ℚ) / (a.den : ℚ)

theorem PyFloat.add_toRat (a b : PyFloat) (ha : 0 < a.den) (hb : 0 < b.den) :
    (a.add b).toRat = a.toRat + b.toRat := by
  have ha' : ((a.den : ℚ)) ≠ 0 := by positivity
  have hb' : ((b.den : ℚ)) ≠ 0 := by positivity
  rw [PyFloat.add, PyFloat.toRat, PyFloat.toRat, PyFloat.toRat]
  push_cast
  field_simp

theorem PyFloat.sub_toRat (a b : PyFloat) (ha : 0 < a.den) (hb : 0 < b.den) :
    (a.sub b).toRat = a.toRat - b.toRat := by
  have ha' : ((a.den : ℚ)) ≠ 0 := by positivity
  have hb' : ((b.den : ℚ)) ≠ 0 := by positivity
  rw [PyFloat.sub, PyFloat.toRat, PyFloat.toRat, PyFloat.toRat]
  push_cast
  field_simp
  ring

theorem PyFloat.absVal_toRat (a : PyFloat) (ha : 0 < a.den) :
    a.absVal.toRat = |a.toRat| := by
  rw [PyFloat.absVal, PyFloat.toRat, PyFloat.toRat, abs_div]
  push_cast
  rw [abs_of_pos (by positivity : (0 : ℚ) < (a.den : ℚ))]

theorem PyFloat.le_iff_toRat (a b : PyFloat) (ha : 0 < a.den) (hb : 0 < b.den) :
    PyFloat.le a b ↔ a.toRat ≤ b.toRat := by
  rw [PyFloat.le, PyFloat.toRat, PyFloat.toRat,
    div_le_div_iff (by positivity) (by positivity)]
  constructor
  · intro h
    exact_mod_cast h
  · intro h
    exact_mod_cast h

/-- Python's `float(s)` restricted to plain decimal literals (the only
form the codebook's percent column contains); the value is exact. -/
def parseFloatChars (l : List Char) : Option PyFloat :=
  let core : List Char → Option PyFloat := fun t =>
    match splitOnChar '.' t with
    | [ip] =>
      if ip ≠ [] ∧ ip.all Char.isDigit then some ⟨(digitsToNat ip : Int), 1⟩
      else none
    | [ip, fp] =>
      if (ip ≠ [] ∨ fp ≠ []) ∧ ip.all Char.isDigit ∧ fp.all Char.isDigit then
        some ⟨(digitsToNat ip : Int) * (10 : Int) ^ fp.length + (digitsToNat fp : Int),
          (10 : Int) ^ fp.length⟩
      else none
    | _ => none
  match l with
  | '+' :: t => core t
  | '-' :: t => (core t).map (fun q => ⟨-q.num, q.den⟩)
  | t => core t

def parseFloatPy (s : String) : Except PyErr PyFloat :=
  match parseFloatChars (trimChars s.data) with
  | some q => .ok q
  | none => .error (.value s!"could not convert string to float: {s}")

/-- Python's `sum(map(int, vals))`, failing at the first unparsable value. -/
def sumMapInt (acc : Int) : List String → Except PyErr Int
  | [] => .ok acc
  | s :: rest =>
    match parseIntPy s with
    | .ok n => sumMapInt (acc + n) rest
    | .error e => .error e

/-- Python's `sum(map(float, vals))`, failing at the first unparsable value. -/
def sumMapFloat (acc : PyFloat) : List String → Except PyErr PyFloat
  | [] => .ok acc
  | s :: rest =>
    match parseFloatPy s with
    | .ok q => sumMapFloat (acc.add q) rest
    | .error e => .error e

/-- Round to the nearest integer, ties to even (Python's `round`), for a
fraction with positive denominator: with `f = ⌊a⌋` and remainder
`rnum / den`, compare `2 * rnum` with `den`. -/
def roundHalfEven (a : PyFloat) : Int :=
  let f := Int.fdiv a.num a.den
  let rnum := a.num - f * a.den
  if 2 * rnum < a.den then f
  else if a.den < 2 * rnum then f + 1
  else if 2 ∣ f then f else f + 1

/-- Python's `round(x, 2)` on the exact model. -/
def round2 (a : PyFloat) : PyFloat :=
  ⟨roundHalfEven ⟨a.num * 100, a.den⟩, 100⟩

def totalErrMsgInt (k : String) (t s : Int) (diff tol : Nat)
    (data : List String) : String :=
  s!"{k} total {t} does not match sum {s} within tolerance of {tol}.\nDiff: {diff}.\nData: {data}"

def pfRender (q : PyFloat) : String := s!"{q.num}/{q.den}"

def totalErrMsgPerc (t s diff : PyFloat) (data : List String) : String :=
  s!"percent total {pfRender t} does not match sum {pfRender s} within tolerance of 0.2.\nDiff: {pfRender diff}.\nData: {data}"

/-- The total check for the two integer columns: `diff = round(abs(s - t), 2)`
is just `abs(s - t)` on integers; `assert diff <= tol`. -/
def checkTotalInt (k : String) (vals : List String) (tot : String) (tol : Nat) :
    Except PyErr Unit :=
  match sumMapInt 0 vals with
  | .error err => .error err
  | .ok s =>
    match parseIntPy tot with
    | .error err => .error err
    | .ok t =>
      if (s - t).natAbs ≤ tol then .ok ()
      else .error (.assert (totalErrMsgInt k t s ((s - t).natAbs) tol vals))

/-- The percent tolerance `0.2`. -/
def percTol : PyFloat := ⟨1, 5⟩

/-- The total check for the percent column (tolerance `0.2`). -/
def checkTotalPerc (vals : List String) (tot : String) : Except PyErr Unit :=
  match sumMapFloat (PyFloat.ofInt 0) vals with
  | .error err => .error err
  | .ok s =>
    match parseFloatPy tot with
    | .error err => .error err
    | .ok t =>
      if PyFloat.le (round2 (s.sub t).absVal) percTol then .ok ()
      else .error (.assert (totalErrMsgPerc t s (round2 (s.sub t).absVal) vals))

/-! ### Answer-table reconstruction (`get_answer_fields`) -/

/-- The `total` row dict popped off the three numeric columns. -/
structure TotalOut where
  frequency : String
  weighted_frequency : String
  percent : String
deriving DecidableEq, Repr

/-- The dict returned by `get_answer_fields`. -/
structure AnswerOut where
  answer_categories : List String
  code : List String
  frequency : List String
  weighted_frequency : List String
  percent : List String
  total : TotalOut
deriving DecidableEq, Repr

/-- The state of `out` just before the totals are popped (after the
split/flatten, length check and character cleanup). -/
structure PreOut where
  answer_categories : List String
  code : List String
  frequency : List String
  weighted_frequency : List String
  percent : List String
deriving DecidableEq, Repr

/-- Entries collected for the answer-category / code columns: a data
element (already `split_and_strip`-ed into its lines) or a `PageBreak`. -/
inductive AnsEntry where
  | pb
  | strs (l : List String)
deriving DecidableEq, Repr

/-- Code-column entries after break insertion: additionally a
`CodeElementBreak`. -/
inductive CodeEntry where
  | pb
  | brk
  | strs (l : List String)
deriving DecidableEq, Repr

/-- Flattened answer-category tokens. -/
inductive AnsTok where
  | pb
  | str (s : String)
deriving DecidableEq, Repr

/-- Flattened code tokens. -/
inductive CodeTok where
  | pb
  | brk
  | str (s : String)
deriving DecidableEq, Repr

/-- The collection loop of the first (answer/code) phase: skip elements
above the first heading, turn a repeated heading into a `PageBreak`,
collect aligned elements split into lines. -/
def collectACGo (hv : String) (htop : Int) (pick : Element → Bool)
    (seen : Bool) : List Element → List AnsEntry
  | [] => []
  | e :: rest =>
    if e.top < htop then collectACGo hv htop pick seen rest
    else if strContains e.text hv then
      if seen then AnsEntry.pb :: collectACGo hv htop pick true rest
      else collectACGo hv htop pick true rest
    else if pick e then
      AnsEntry.strs (split_and_strip e.text) :: collectACGo hv htop pick seen rest
    else collectACGo hv htop pick seen rest

def toCodeEntry : AnsEntry → CodeEntry
  | .pb => .pb
  | .strs l => .strs l

def ansEntryIsPb : AnsEntry → Bool
  | .pb => true
  | .strs _ => false

/-- The break-insertion loop (lines 740-746): a `CodeElementBreak` goes
between two consecutive entries that are both not `PageBreak`s. -/
def insertBreaksGo (prev : AnsEntry) : List AnsEntry → List CodeEntry
  | [] => []
  | e :: rest =>
    (if ansEntryIsPb e || ansEntryIsPb prev then [toCodeEntry e]
     else [CodeEntry.brk, toCodeEntry e]) ++ insertBreaksGo e rest

def insertBreaks : List AnsEntry → List CodeEntry
  | [] => []
  | e :: rest => toCodeEntry e :: insertBreaksGo e rest

/-- Python's `len(e)` on an answer entry (`PageBreak.__len__` is 1). -/
def ansEntryLen : AnsEntry → Nat
  | .pb => 1
  | .strs l => l.length

def codeEntryLen : CodeEntry → Nat
  | .pb => 1
  | .brk => 1
  | .strs l => l.length

/-- The `flatten` helper on the answer-category entries. -/
def flattenAns : List AnsEntry → List AnsTok
  | [] => []
  | .pb :: rest => AnsTok.pb :: flattenAns rest
  | .strs l :: rest => l.map AnsTok.str ++ flattenAns rest

/-- The `flatten` helper on the code entries. -/
def flattenCode : List CodeEntry → List CodeTok
  | [] => []
  | .pb :: rest => CodeTok.pb :: flattenCode rest
  | .brk :: rest => CodeTok.brk :: flattenCode rest
  | .strs l :: rest => l.map CodeTok.str ++ flattenCode rest

/-- The lock-step merge loop (lines 781-801) over the zipped flattened
sequences, carrying the accumulated `ans_out`/`code_out`.  The trailing
length assertion (lines 803-811) is the `[]` case. -/
def mergeGo : List (AnsTok × CodeTok) → List String → List String →
    Except PyErr (List String × List String)
  | [], xs, ys =>
    if xs.length = ys.length then .ok (xs, ys)
    else .error (.assert
      "Number of answer categories and code elements do not match after syncing.")
  | (a, c) :: rest, xs, ys =>
    match a, c with
    | AnsTok.pb, CodeTok.pb => mergeGo rest xs ys
    | AnsTok.pb, _ => .error (.assert "Page break mismatch")
    | _, CodeTok.pb => .error (.assert "Page break mismatch")
    | AnsTok.str a', CodeTok.brk =>
      match xs.getLast? with
      | none => .error (.index "list index out of range")
      | some last => mergeGo rest (xs.dropLast ++ [last ++ " " ++ a']) ys
    | AnsTok.str a', CodeTok.str c' => mergeGo rest (xs ++ [a']) (ys ++ [c'])

/-- The merge of the flattened category and code sequences. -/
def mergeAC (A : List AnsTok) (C : List CodeTok) :
    Except PyErr (List String × List String) :=
  mergeGo (A.zip C) [] []

/-- The collection loop of the numeric phase: skip elements above the
heading or containing the heading text, collect aligned element texts. -/
def collectNumGo (hv : String) (htop : Int) (pick : Element → Bool) :
    List Element → List String
  | [] => []
  | e :: rest =>
    if e.top < htop || strContains e.text hv then
      collectNumGo hv htop pick rest
    else if pick e then e.text :: collectNumGo hv htop pick rest
    else collectNumGo hv htop pick rest

/-- Everything in `get_answer_fields` before the totals are popped:
column collection, break repair, the alignment checks, the lock-step
merge, the split/flatten pass and the character cleanup. -/
def answerPre (unit : List Element) : Except PyErr PreOut :=
  match lookupE unit "Answer Categories" with
  | .error err => .error err
  | .ok hA =>
    let ansE := collectACGo "Answer Categories" hA.top
      (fun e => decide (hA.left - 10 < e.left ∧ e.left < hA.left + 10)) false unit
    match lookupE unit "Code" with
    | .error err => .error err
    | .ok hC =>
      let codeE := insertBreaks (collectACGo "Code" hC.top
        (fun e => decide (hC.right - 10 < e.right ∧ e.right < hC.right + 10)) false unit)
      if (ansE.map ansEntryLen).sum = (codeE.map codeEntryLen).sum then
        match mergeAC (flattenAns ansE) (flattenCode codeE) with
        | .error err => .error err
        | .ok (ansL, codeL) =>
          match lookupE unit "Frequency" with
          | .error err => .error err
          | .ok hF =>
            let freq0 := collectNumGo "Frequency" hF.top
              (fun e => decide (hF.left < e.left ∧ e.left < 386 - 10)) unit
            match lookupE unit "Weighted Frequency" with
            | .error err => .error err
            | .ok hW =>
              let wtd0 := collectNumGo "Weighted Frequency" hW.top
                (fun e => decide (hW.right - 10 < e.right ∧ e.right < hW.right + 10)) unit
              match lookupE unit "%" with
              | .error err => .error err
              | .ok hP =>
                let perc0 := collectNumGo "%" hP.top
                  (fun e => decide (hP.right - 10 < e.right ∧ e.right < hP.right + 10)) unit
                let freq := (freq0.map split_and_strip).flatten
                let wtd := (wtd0.map split_and_strip).flatten
                let perc := (perc0.map split_and_strip).flatten
                if freq.length = wtd.length ∧ wtd.length = perc.length then
                  .ok { answer_categories := ansL.map replaceFaultyCharacters,
                        code := ((codeL.map split_and_strip).flatten).map
                          replaceFaultyCharacters,
                        frequency := freq.map removeCommas,
                        weighted_frequency := wtd.map removeCommas,
                        percent := perc }
                else
                  .error (.assert
                    "Frequency, weighted frequency, and percentage columns have different lengths.")
      else
        .error (.assert "Number of answer categories and code elements do not match.")

/-- The totals phase of `get_answer_fields`: pop the last element of each
numeric column into `total`, then validate each column sum against it. -/
def finishTotals (p : PreOut) : Except PyErr AnswerOut :=
  match p.frequency.getLast? with
  | none => .error (.index "pop from empty list")
  | some ft =>
    match p.weighted_frequency.getLast? with
    | none => .error (.index "pop from empty list")
    | some wt =>
      match p.percent.getLast? with
      | none => .error (.index "pop from empty list")
      | some pt =>
        match checkTotalInt "frequency" p.frequency.dropLast ft 0 with
        | .error err => .error err
        | .ok _ =>
          match checkTotalInt "weighted_frequency" p.weighted_frequency.dropLast wt 1 with
          | .error err => .error err
          | .ok _ =>
            match checkTotalPerc p.percent.dropLast pt with
            | .error err => .error err
            | .ok _ =>
              .ok { answer_categories := p.answer_categories, code := p.code,
                    frequency := p.frequency.dropLast,
                    weighted_frequency := p.weighted_frequency.dropLast,
                    percent := p.percent.dropLast,
                    total := { frequency := ft, weighted_frequency := wt,
                               percent := pt } }

/-- Function `get_answer_fields`: the full answer-table reconstruction. -/
def get_answer_fields (unit : List Element) : Except PyErr AnswerOut :=
  (answerPre unit).bind finishTotals

/-! ### Properties of the lock-step merge (C7) -/

def ansTokIsPb : AnsTok → Bool
  | .pb => true
  | .str _ => false

def codeTokIsPb : CodeTok → Bool
  | .pb => true
  | _ => false

def codeTokStr : CodeTok → Option String
  | .str s => some s
  | _ => none

theorem mergeGo_ok_lengths :
    ∀ (l : List (AnsTok × CodeTok)) (xs ys : List String)
      (p : List String × List String),
      mergeGo l xs ys = .ok p → p.1.length = p.2.length := by
  intro l
  induction l with
  | nil =>
    intro xs ys p h
    rw [mergeGo] at h
    by_cases hl : xs.length = ys.length
    · rw [if_pos hl] at h
      cases h
      exact hl
    · rw [if_neg hl] at h
      cases h
  | cons q rest ih =>
    intro xs ys p h
    obtain ⟨a, c⟩ := q
    cases a with
    | pb =>
      cases c with
      | pb => exact ih xs ys p h
      | brk => cases h
      | str c' => cases h
    | str a' =>
      cases c with
      | pb => cases h
      | brk =>
        rw [mergeGo] at h
        cases hg : xs.getLast? with
        | none => rw [hg] at h; cases h
        | some last => rw [hg] at h; exact ih _ _ p h
      | str c' => exact ih _ _ p h

theorem mergeGo_ok_pb :
    ∀ (l : List (AnsTok × CodeTok)) (xs ys : List String)
      (p : List String × List String),
      mergeGo l xs ys = .ok p →
      ∀ q ∈ l, ansTokIsPb q.1 = codeTokIsPb q.2 := by
  intro l
  induction l with
  | nil => intro xs ys p _ q hq; cases hq
  | cons q0 rest ih =>
    intro xs ys p h q hq
    obtain ⟨a, c⟩ := q0
    rcases List.mem_cons.mp hq with rfl | hq2
    · cases a with
      | pb =>
        cases c with
        | pb => rfl
        | brk => cases h
        | str c' => cases h
      | str a' =>
        cases c with
        | pb => cases h
        | brk => rfl
        | str c' => rfl
    · cases a with
      | pb =>
        cases c with
        | pb => exact ih xs ys p h q hq2
        | brk => cases h
        | str c' => cases h
      | str a' =>
        cases c with
        | pb => cases h
        | brk =>
          rw [mergeGo] at h
          cases hg : xs.getLast? with
          | none => rw [hg] at h; cases h
          | some last => rw [hg] at h; exact ih _ _ p h q hq2
        | str c' => exact ih _ _ p h q hq2

theorem mergeGo_ok_codeStrs :
    ∀ (l : List (AnsTok × CodeTok)) (xs ys : List String)
      (p : List String × List String),
      mergeGo l xs ys = .ok p →
      p.2 = ys ++ (l.map Prod.snd).filterMap codeTokStr := by
  intro l
  induction l with
  | nil =>
    intro xs ys p h
    rw [mergeGo] at h
    by_cases hl : xs.length = ys.length
    · rw [if_pos hl] at h
      cases h
      simp
    · rw [if_neg hl] at h
      cases h
  | cons q0 rest ih =>
    intro xs ys p h
    obtain ⟨a, c⟩ := q0
    cases a with
    | pb =>
      cases c with
      | pb => simpa [codeTokStr] using ih xs ys p h
      | brk => cases h
      | str c' => cases h
    | str a' =>
      cases c with
      | pb => cases h
      | brk =>
        rw [mergeGo] at h
        cases hg : xs.getLast? with
        | none => rw [hg] at h; cases h
        | some last =>
          rw [hg] at h
          simpa [codeTokStr] using ih _ _ p h
      | str c' =>
        have := ih _ _ p h
        simpa [codeTokStr] using this

/-- C7: on the lock-step merge of the flattened category and code
sequences, (i) success forces `PageBreak`s to co-occur pairwise at the
same zipped position (so a mismatch anywhere is fatal), the matched pair
being dropped from the output, and the code output is exactly the plain
code strings in order; (ii) the resulting category and code lists have
equal length; (iii) a `(PageBreak, PageBreak)` head is dropped; (iv) a
`SegmentBreak` (`CodeElementBreak`) in the code sequence appends the
current category value, space-joined, onto the previous category value
and consumes no code value; (v) a one-sided `PageBreak` is a fatal
assertion error. -/
theorem mergeAC_spec :
    (∀ (A : List AnsTok) (C : List CodeTok) (out : List String × List String),
      mergeAC A C = .ok out →
      out.1.length = out.2.length ∧
      (∀ q ∈ A.zip C, ansTokIsPb q.1 = codeTokIsPb q.2) ∧
      out.2 = ((A.zip C).map Prod.snd).filterMap codeTokStr) ∧
    (∀ (rest : List (AnsTok × CodeTok)) (xs ys : List String),
      mergeGo ((AnsTok.pb, CodeTok.pb) :: rest) xs ys = mergeGo rest xs ys) ∧
    (∀ (rest : List (AnsTok × CodeTok)) (xs ys : List String) (a last : String),
      mergeGo ((AnsTok.str a, CodeTok.brk) :: rest) (xs ++ [last]) ys =
        mergeGo rest (xs ++ [last ++ " " ++ a]) ys) ∧
    (∀ (rest : List (AnsTok × CodeTok)) (xs ys : List String) (c : String),
      mergeGo ((AnsTok.pb, CodeTok.str c) :: rest) xs ys =
        .error (.assert "Page break mismatch")) ∧
    (∀ (rest : List (AnsTok × CodeTok)) (xs ys : List String) (a : String),
      mergeGo ((AnsTok.str a, CodeTok.pb) :: rest) xs ys =
        .error (.assert "Page break mismatch")) := by
  refine ⟨fun A C out h => ⟨mergeGo_ok_lengths _ [] [] out h,
      mergeGo_ok_pb _ [] [] out h, by
        simpa using mergeGo_ok_codeStrs _ [] [] out h⟩,
    fun rest xs ys => rfl,
    fun rest xs ys a last => ?_,
    fun rest xs ys c => rfl,
    fun rest xs ys a => rfl⟩
  rw [mergeGo, List.getLast?_concat, List.dropLast_concat]

/-- Witness for `mergeAC_spec`: a run containing a matched `PageBreak`
pair, a regular row, a `CodeElementBreak` join and a final row. -/
theorem mergeAC_spec_witness :
    mergeAC [AnsTok.pb, AnsTok.str "Yes", AnsTok.str "cont", AnsTok.str "No"]
        [CodeTok.pb, CodeTok.str "1", CodeTok.brk, CodeTok.str "2"] =
      .ok (["Yes cont", "No"], ["1", "2"]) ∧
    (["Yes cont", "No"] : List String).length = (["1", "2"] : List String).length := by
  constructor
  · rfl
  · exact (mergeAC_spec.1
      [AnsTok.pb, AnsTok.str "Yes", AnsTok.str "cont", AnsTok.str "No"]
      [CodeTok.pb, CodeTok.str "1", CodeTok.brk, CodeTok.str "2"]
      (["Yes cont", "No"], ["1", "2"]) rfl).1

/-! ### Group length invariants of `get_answer_fields` (C2) -/

theorem mem_splitOnChar_not_sep (sep : Char) :
    ∀ (l : List Char) (p : List Char), p ∈ splitOnChar sep l → sep ∉ p := by
  intro l
  induction l with
  | nil =>
    intro p hp
    rw [splitOnChar] at hp
    rcases List.mem_singleton.mp hp with rfl
    exact List.not_mem_nil sep
  | cons c rest ih =>
    intro p hp
    rw [splitOnChar] at hp
    by_cases hc : c = sep
    · rw [if_pos hc] at hp
      rcases List.mem_cons.mp hp with rfl | hp
      · exact List.not_mem_nil sep
      · exact ih p hp
    · rw [if_neg hc] at hp
      cases hr : splitOnChar sep rest with
      | nil =>
        rw [hr] at hp
        rcases List.mem_singleton.mp hp with rfl
        intro hmem
        rcases List.mem_singleton.mp hmem with rfl
        exact hc rfl
      | cons h0 t0 =>
        rw [hr] at hp
        rcases List.mem_cons.mp hp with rfl | hp
        · intro hmem
          rcases List.mem_cons.mp hmem with rfl | hmem
          · exact hc rfl
          · exact ih h0 (hr ▸ List.mem_cons_self h0 t0) hmem
        · exact ih p (hr ▸ List.mem_cons_of_mem h0 hp)

theorem splitOnChar_of_not_mem (sep : Char) :
    ∀ (l : List Char), sep ∉ l → splitOnChar sep l = [l] := by
  intro l
  induction l with
  | nil => intro _; rfl
  | cons c rest ih =>
    intro h
    have hc : ¬c = sep := fun hc => h (by rw [hc]; exact List.mem_cons_self sep rest)
    rw [splitOnChar, if_neg hc, ih (fun hm => h (List.mem_cons_of_mem c hm))]

theorem trimChars_subset (l : List Char) (c : Char) (h : c ∈ trimChars l) :
    c ∈ l := by
  rw [trimChars] at h
  rw [List.mem_reverse] at h
  have h1 := List.dropWhile_subset isPySpace h
  rw [List.mem_reverse] at h1
  exact List.dropWhile_subset isPySpace h1

theorem mem_split_and_strip_no_nl (s : String) (x : String)
    (hx : x ∈ split_and_strip s) : ('\n') ∉ x.data := by
  rw [split_and_strip, strSplitOnChar, List.map_map] at hx
  rcases List.mem_map.mp hx with ⟨p, hp, rfl⟩
  intro hmem
  have : ('\n') ∈ p := trimChars_subset p '\n' hmem
  exact mem_splitOnChar_not_sep '\n' s.data p hp this

theorem split_and_strip_of_no_nl (s : String) (h : ('\n') ∉ s.data) :
    split_and_strip s = [pyStrip s] := by
  rw [split_and_strip, strSplitOnChar, splitOnChar_of_not_mem '\n' s.data h]
  rfl

theorem flatten_split_singletons_length :
    ∀ L : List String, (∀ s ∈ L, ('\n') ∉ s.data) →
      ((L.map split_and_strip).flatten).length = L.length := by
  intro L
  induction L with
  | nil => intro _; rfl
  | cons s rest ih =>
    intro h
    rw [List.map_cons, List.flatten_cons, List.length_append,
      split_and_strip_of_no_nl s (h s (by simp)),
      ih (fun x hx => h x (List.mem_cons_of_mem s hx))]
    simp [Nat.add_comm]

theorem collectACGo_strs_shape (hv : String) (htop : Int) (pick : Element → Bool) :
    ∀ (unit : List Element) (seen : Bool) (l : List String),
      AnsEntry.strs l ∈ collectACGo hv htop pick seen unit →
      ∃ e : Element, l = split_and_strip e.text := by
  intro unit
  induction unit with
  | nil => intro seen l h; cases h
  | cons e rest ih =>
    intro seen l h
    rw [collectACGo] at h
    by_cases h1 : e.top < htop
    · rw [if_pos h1] at h
      exact ih seen l h
    · rw [if_neg h1] at h
      by_cases h2 : strContains e.text hv
      · rw [if_pos h2] at h
        by_cases h3 : seen
        · rw [if_pos h3] at h
          rcases List.mem_cons.mp h with heq | h
          · cases heq
          · exact ih true l h
        · rw [if_neg h3] at h
          exact ih true l h
      · rw [if_neg h2] at h
        by_cases h4 : pick e
        · rw [if_pos h4] at h
          rcases List.mem_cons.mp h with heq | h
          · exact ⟨e, (AnsEntry.strs.injEq _ _).mp heq.symm |>.symm ▸ rfl⟩
          · exact ih seen l h
        · rw [if_neg h4] at h
          exact ih seen l h

theorem insertBreaksGo_mem (prev : AnsEntry) :
    ∀ (ce : List AnsEntry) (x : CodeEntry), x ∈ insertBreaksGo prev ce →
      x = CodeEntry.brk ∨ ∃ a ∈ ce, toCodeEntry a = x := by
  intro ce
  induction ce generalizing prev with
  | nil => intro x h; cases h
  | cons a rest ih =>
    intro x h
    rw [insertBreaksGo] at h
    rcases List.mem_append.mp h with h1 | h1
    · by_cases hpb : (ansEntryIsPb a || ansEntryIsPb prev) = true
      · rw [if_pos hpb] at h1
        rcases List.mem_singleton.mp h1 with rfl
        exact Or.inr ⟨a, List.mem_cons_self a rest, rfl⟩
      · rw [if_neg hpb] at h1
        rcases List.mem_cons.mp h1 with rfl | h1
        · exact Or.inl rfl
        · rcases List.mem_singleton.mp h1 with rfl
          exact Or.inr ⟨a, List.mem_cons_self a rest, rfl⟩
    · rcases ih a x h1 with h2 | ⟨b, hb, hx⟩
      · exact Or.inl h2
      · exact Or.inr ⟨b, List.mem_cons_of_mem a hb, hx⟩

theorem insertBreaks_mem_strs (ce : List AnsEntry) (l : List String)
    (h : CodeEntry.strs l ∈ insertBreaks ce) : AnsEntry.strs l ∈ ce := by
  cases ce with
  | nil => cases h
  | cons a rest =>
    rw [insertBreaks] at h
    rcases List.mem_cons.mp h with heq | h
    · cases a with
      | pb => cases heq
      | strs l0 =>
        cases heq
        exact List.mem_cons_self _ _
    · rcases insertBreaksGo_mem a rest (CodeEntry.strs l) h with h2 | ⟨b, hb, hx⟩
      · cases h2
      · cases b with
        | pb => cases hx
        | strs l0 =>
          cases hx
          exact List.mem_cons_of_mem a hb

theorem flattenCode_mem_str :
    ∀ (ce : List CodeEntry) (s : String), CodeTok.str s ∈ flattenCode ce →
      ∃ l, CodeEntry.strs l ∈ ce ∧ s ∈ l := by
  intro ce
  induction ce with
  | nil => intro s h; cases h
  | cons a rest ih =>
    intro s h
    cases a with
    | pb =>
      rw [flattenCode] at h
      rcases List.mem_cons.mp h with heq | h
      · cases heq
      · rcases ih s h with ⟨l, hl, hs⟩
        exact ⟨l, List.mem_cons_of_mem _ hl, hs⟩
    | brk =>
      rw [flattenCode] at h
      rcases List.mem_cons.mp h with heq | h
      · cases heq
      · rcases ih s h with ⟨l, hl, hs⟩
        exact ⟨l, List.mem_cons_of_mem _ hl, hs⟩
    | strs l0 =>
      rw [flattenCode] at h
      rcases List.mem_append.mp h with h1 | h1
      · rcases List.mem_map.mp h1 with ⟨x, hx, heq⟩
        cases heq
        exact ⟨l0, List.mem_cons_self _ _, hx⟩
      · rcases ih s h1 with ⟨l, hl, hs⟩
        exact ⟨l, List.mem_cons_of_mem _ hl, hs⟩

/-- Every code string produced by the merge phase is newline-free: it
came from a `split_and_strip` line of a collected element. -/
theorem mergeAC_code_no_nl (ansE : List AnsEntry) (ce : List CodeEntry)
    (hv : String) (htop : Int) (pick : Element → Bool) (seen : Bool)
    (unit : List Element) (hce : ce = insertBreaks (collectACGo hv htop pick seen unit))
    (out : List String × List String)
    (h : mergeAC (flattenAns ansE) (flattenCode ce) = .ok out) :
    ∀ s ∈ out.2, ('\n') ∉ s.data := by
  intro s hs
  have h2 := mergeGo_ok_codeStrs _ [] [] out h
  rw [h2] at hs
  rw [List.nil_append] at hs
  rcases List.mem_filterMap.mp hs with ⟨tok, htok, hstr⟩
  rcases List.mem_map.mp htok with ⟨q, hq, rfl⟩
  have hq2 : q.2 ∈ flattenCode ce := (List.mem_zip hq).2
  cases hq2' : q.2 with
  | pb => rw [hq2'] at hstr; cases hstr
  | brk => rw [hq2'] at hstr; cases hstr
  | str s0 =>
    rw [hq2'] at hstr
    rw [codeTokStr] at hstr
    cases hstr
    rw [hq2'] at hq2
    rcases flattenCode_mem_str ce s hq2 with ⟨l, hl, hsl⟩
    rw [hce] at hl
    rcases collectACGo_strs_shape hv htop pick unit seen l
      (insertBreaks_mem_strs _ l hl) with ⟨e, rfl⟩
    exact mem_split_and_strip_no_nl e.text s hsl

/-- After a successful `answerPre`, the category and code lists have
equal length, and the three numeric columns have pairwise equal
lengths. -/
theorem answerPre_ok (unit : List Element) (pre : PreOut)
    (h : answerPre unit = .ok pre) :
    pre.answer_categories.length = pre.code.length ∧
    pre.frequency.length = pre.weighted_frequency.length ∧
    pre.weighted_frequency.length = pre.percent.length := by
  unfold answerPre at h
  repeat'
    first
    | (cases h; done)
    | split at h
    | dsimp only at h
  rename_i hcount xm ansL codeL hmerge hlen
  rw [Except.ok.injEq] at h
  subst h
  have hnl : ∀ s ∈ codeL, ('\n') ∉ s.data :=
    mergeAC_code_no_nl _ _ _ _ _ _ _ rfl (ansL, codeL) hmerge
  have hlen1 := mergeGo_ok_lengths _ [] [] (ansL, codeL) hmerge
  refine ⟨?_, ?_, ?_⟩
  · simp only [List.length_map]
    rw [flatten_split_singletons_length codeL hnl]
    exact hlen1
  · simp only [List.length_map]
    exact hlen.1
  · simp only [List.length_map]
    exact hlen.2

/-- C2 (amended): whenever `get_answer_fields` completes, the
answer-category and code lists have equal length, and the frequency,
weighted-frequency and percent lists have pairwise equal lengths; but the
two groups are only checked separately -- nothing ties the category/code
length to the numeric-column length. -/
theorem get_answer_fields_group_lengths (unit : List Element)
    (out : AnswerOut) (h : get_answer_fields unit = .ok out) :
    out.answer_categories.length = out.code.length ∧
    out.frequency.length = out.weighted_frequency.length ∧
    out.weighted_frequency.length = out.percent.length := by
  rw [get_answer_fields] at h
  cases hp : answerPre unit with
  | error e => rw [hp] at h; cases h
  | ok pre =>
    rw [hp] at h
    have hpre := answerPre_ok unit pre hp
    dsimp only [Except.bind] at h
    unfold finishTotals at h
    repeat'
      first
      | (cases h; done)
      | split at h
    rw [Except.ok.injEq] at h
    subst h
    refine ⟨hpre.1, ?_, ?_⟩
    · simp only [List.length_dropLast]
      rw [hpre.2.1]
    · simp only [List.length_dropLast]
      rw [hpre.2.2]

/-- The concrete unit used to refute C2 as stated: one answer row but two
frequency rows (plus a printed total row in each numeric column); every
check in `get_answer_fields` passes. -/
def mkTextElem (t l w : Int) (s : String) : Element :=
  { elem_type := .text, left := l, top := t, width := w, height := 10, text := s }

def answerCounterUnit : List Element :=
  [mkTextElem 100 100 50 "Answer Categories", mkTextElem 100 200 30 "Code",
   mkTextElem 100 300 40 "Frequency", mkTextElem 100 400 60 "Weighted Frequency",
   mkTextElem 100 500 10 "%",
   mkTextElem 120 100 30 "Yes", mkTextElem 120 210 15 "1",
   mkTextElem 120 310 20 "10", mkTextElem 120 440 15 "100",
   mkTextElem 120 505 10 "33.5",
   mkTextElem 130 310 20 "20", mkTextElem 130 440 15 "200",
   mkTextElem 130 505 10 "66.5",
   mkTextElem 150 310 20 "30", mkTextElem 150 440 15 "300",
   mkTextElem 150 505 10 "100.0"]

/-- C2 counterexample: `get_answer_fields` completes on
`answerCounterUnit` (all its internal checks pass) yet the
answer-category list has length 1 while the frequency list has length 2,
so the five returned lists do not all have equal length. -/
theorem get_answer_fields_unequal_groups_counterexample :
    get_answer_fields answerCounterUnit = .ok
      { answer_categories := ["Yes"], code := ["1"],
        frequency := ["10", "20"], weighted_frequency := ["100", "200"],
        percent := ["33.5", "66.5"],
        total := { frequency := "30", weighted_frequency := "300",
                   percent := "100.0" } } ∧
    (["Yes"] : List String).length ≠ (["10", "20"] : List String).length := by
  exact ⟨rfl, by decide⟩

/-- Witness for `get_answer_fields_group_lengths` at a concrete unit. -/
theorem get_answer_fields_group_lengths_witness :
    (["Yes"] : List String).length = (["1"] : List String).length ∧
    (["10", "20"] : List String).length = (["100", "200"] : List String).length ∧
    (["100", "200"] : List String).length = (["33.5", "66.5"] : List String).length :=
  get_answer_fields_group_lengths answerCounterUnit
    { answer_categories := ["Yes"], code := ["1"],
      frequency := ["10", "20"], weighted_frequency := ["100", "200"],
      percent := ["33.5", "66.5"],
      total := { frequency := "30", weighted_frequency := "300",
                 percent := "100.0" } } rfl

/-! ### The totals phase (C3) -/

theorem checkTotalInt_eq (k : String) (vals : List String) (tot : String)
    (tol : Nat) (s t : Int) (hs : sumMapInt 0 vals = .ok s)
    (ht : parseIntPy tot = .ok t) :
    checkTotalInt k vals tot tol =
      if (s - t).natAbs ≤ tol then .ok ()
      else .error (.assert (totalErrMsgInt k t s ((s - t).natAbs) tol vals)) := by
  unfold checkTotalInt
  rw [hs, ht]

theorem checkTotalPerc_eq (vals : List String) (tot : String) (s t : PyFloat)
    (hs : sumMapFloat (PyFloat.ofInt 0) vals = .ok s)
    (ht : parseFloatPy tot = .ok t) :
    checkTotalPerc vals tot =
      if PyFloat.le (round2 (s.sub t).absVal) percTol then .ok ()
      else .error (.assert (totalErrMsgPerc t s (round2 (s.sub t).absVal) vals)) := by
  unfold checkTotalPerc
  rw [hs, ht]

theorem finishTotals_eq (p : PreOut) (fs : List String) (ft : String)
    (ws : List String) (wt : String) (ps : List String) (pt : String)
    (hfr : p.frequency = fs ++ [ft]) (hwt : p.weighted_frequency = ws ++ [wt])
    (hpc : p.percent = ps ++ [pt]) :
    finishTotals p =
      match checkTotalInt "frequency" fs ft 0 with
      | .error err => .error err
      | .ok _ =>
        match checkTotalInt "weighted_frequency" ws wt 1 with
        | .error err => .error err
        | .ok _ =>
          match checkTotalPerc ps pt with
          | .error err => .error err
          | .ok _ =>
            .ok { answer_categories := p.answer_categories, code := p.code,
                  frequency := fs, weighted_frequency := ws, percent := ps,
                  total := { frequency := ft, weighted_frequency := wt,
                             percent := pt } } := by
  unfold finishTotals
  rw [hfr, hwt, hpc, List.getLast?_concat, List.getLast?_concat,
    List.getLast?_concat, List.dropLast_concat, List.dropLast_concat,
    List.dropLast_concat]

/-- C3: `get_answer_fields` finishes by popping the last element of each
numeric column into `total` and validating: writing each column as
`data ++ [printed-total]` with parsable entries, the phase succeeds (with
exactly the popped totals in `total` and the remaining rows in the
columns) iff the frequency difference is within 0, the
weighted-frequency difference within 1, and the percent difference,
rounded to two decimals, within 0.2; the first column out of tolerance
aborts with an assertion error reporting the printed total, computed sum
and difference. -/
theorem finishTotals_spec :
    (∀ unit : List Element,
      get_answer_fields unit = (answerPre unit).bind finishTotals) ∧
    (∀ (p : PreOut) (fs : List String) (ft : String) (ws : List String)
      (wt : String) (ps : List String) (pt : String) (sf tf sw tw : Int)
      (sp tp : PyFloat),
      p.frequency = fs ++ [ft] →
      p.weighted_frequency = ws ++ [wt] →
      p.percent = ps ++ [pt] →
      sumMapInt 0 fs = .ok sf → parseIntPy ft = .ok tf →
      sumMapInt 0 ws = .ok sw → parseIntPy wt = .ok tw →
      sumMapFloat (PyFloat.ofInt 0) ps = .ok sp → parseFloatPy pt = .ok tp →
      ((finishTotals p = .ok
          { answer_categories := p.answer_categories, code := p.code,
            frequency := fs, weighted_frequency := ws, percent := ps,
            total := { frequency := ft, weighted_frequency := wt,
                       percent := pt } }) ↔
        ((sf - tf).natAbs ≤ 0 ∧ (sw - tw).natAbs ≤ 1 ∧
          PyFloat.le (round2 (sp.sub tp).absVal) percTol)) ∧
      (¬(sf - tf).natAbs ≤ 0 →
        finishTotals p = .error (.assert
          (totalErrMsgInt "frequency" tf sf ((sf - tf).natAbs) 0 fs))) ∧
      ((sf - tf).natAbs ≤ 0 → ¬(sw - tw).natAbs ≤ 1 →
        finishTotals p = .error (.assert
          (totalErrMsgInt "weighted_frequency" tw sw ((sw - tw).natAbs) 1 ws))) ∧
      ((sf - tf).natAbs ≤ 0 → (sw - tw).natAbs ≤ 1 →
        ¬PyFloat.le (round2 (sp.sub tp).absVal) percTol →
        finishTotals p = .error (.assert
          (totalErrMsgPerc tp sp (round2 (sp.sub tp).absVal) ps)))) := by
  refine ⟨fun unit => rfl, ?_⟩
  intro p fs ft ws wt ps pt sf tf sw tw sp tp hfr hwt hpc hsf htf hsw htw hsp htp
  have hmain : finishTotals p =
      if (sf - tf).natAbs ≤ 0 then
        if (sw - tw).natAbs ≤ 1 then
          if PyFloat.le (round2 (sp.sub tp).absVal) percTol then
            .ok { answer_categories := p.answer_categories, code := p.code,
                  frequency := fs, weighted_frequency := ws, percent := ps,
                  total := { frequency := ft, weighted_frequency := wt,
                             percent := pt } }
          else .error (.assert
            (totalErrMsgPerc tp sp (round2 (sp.sub tp).absVal) ps))
        else .error (.assert
          (totalErrMsgInt "weighted_frequency" tw sw ((sw - tw).natAbs) 1 ws))
      else .error (.assert
        (totalErrMsgInt "frequency" tf sf ((sf - tf).natAbs) 0 fs)) := by
    rw [finishTotals_eq p fs ft ws wt ps pt hfr hwt hpc,
      checkTotalInt_eq _ _ _ _ sf tf hsf htf,
      checkTotalInt_eq _ _ _ _ sw tw hsw htw,
      checkTotalPerc_eq _ _ sp tp hsp htp]
    by_cases c1 : (sf - tf).natAbs ≤ 0
    · by_cases c2 : (sw - tw).natAbs ≤ 1
      · by_cases c3 : PyFloat.le (round2 (sp.sub tp).absVal) percTol
        · simp only [if_pos c1, if_pos c2, if_pos c3]
        · simp only [if_pos c1, if_pos c2, if_neg c3]
      · simp only [if_pos c1, if_neg c2]
    · simp only [if_neg c1]
  rw [hmain]
  refine ⟨?_, ?_, ?_, ?_⟩
  · split_ifs with c1 c2 c3
    · exact iff_of_true rfl ⟨c1, c2, c3⟩
    · exact iff_of_false (by simp) (fun hc => c3 hc.2.2)
    · exact iff_of_false (by simp) (fun hc => c2 hc.2.1)
    · exact iff_of_false (by simp) (fun hc => c1 hc.1)
  · intro hc1
    rw [if_neg hc1]
  · intro hc1 hc2
    rw [if_pos hc1, if_neg hc2]
  · intro hc1 hc2 hc3
    rw [if_pos hc1, if_pos hc2, if_neg hc3]

/-- Witness for `finishTotals_spec`: a concrete three-row table whose
printed totals all match the recomputed sums. -/
theorem finishTotals_spec_witness :
    finishTotals
        { answer_categories := ["Yes"], code := ["1"],
          frequency := ["10", "20", "30"],
          weighted_frequency := ["100", "200", "300"],
          percent := ["33.5", "66.5", "100.0"] } =
      .ok { answer_categories := ["Yes"], code := ["1"],
            frequency := ["10", "20"], weighted_frequency := ["100", "200"],
            percent := ["33.5", "66.5"],
            total := { frequency := "30", weighted_frequency := "300",
                       percent := "100.0" } } :=
  ((finishTotals_spec.2
      { answer_categories := ["Yes"], code := ["1"],
        frequency := ["10", "20", "30"],
        weighted_frequency := ["100", "200", "300"],
        percent := ["33.5", "66.5", "100.0"] }
      ["10", "20"] "30" ["100", "200"] "300" ["33.5", "66.5"] "100.0"
      30 30 300 300 ⟨10000, 100⟩ ⟨1000, 10⟩
      rfl rfl rfl rfl rfl rfl rfl rfl rfl).1).mpr
    ⟨by decide, by decide, by decide⟩

/-! ### The broad-extraction re-alignment step (C4) -/

theorem foldlMin_spec (t : Int) :
    ∀ (rest : List Element) (x : Element),
      (rest.foldl (fun best y =>
        if (y.top - t).natAbs < (best.top - t).natAbs then y else best) x) ∈
          x :: rest ∧
      ∀ y ∈ x :: rest,
        ((rest.foldl (fun best y =>
          if (y.top - t).natAbs < (best.top - t).natAbs then y else best)
            x).top - t).natAbs ≤ (y.top - t).natAbs := by
  intro rest
  induction rest with
  | nil =>
    intro x
    refine ⟨List.mem_singleton.mpr rfl, ?_⟩
    intro y hy
    rcases List.mem_singleton.mp hy with rfl
    exact le_refl _
  | cons z rest ih =>
    intro x
    rw [List.foldl_cons]
    by_cases hc : (z.top - t).natAbs < (x.top - t).natAbs
    · rw [if_pos hc]
      rcases ih z with ⟨hmem, hle⟩
      refine ⟨List.mem_cons_of_mem x hmem, ?_⟩
      intro y hy
      rcases List.mem_cons.mp hy with rfl | hy2
      · exact le_trans (hle z (List.mem_cons_self z rest)) (le_of_lt hc)
      · exact hle y hy2
    · rw [if_neg hc]
      rcases ih x with ⟨hmem, hle⟩
      constructor
      · rcases List.mem_cons.mp hmem with hh | hh
        · rw [hh]
          exact List.mem_cons_self x (z :: rest)
        · exact List.mem_cons_of_mem x (List.mem_cons_of_mem z hh)
      · intro y hy
        rcases List.mem_cons.mp hy with rfl | hy2
        · exact hle y (List.mem_cons_self y rest)
        · rcases List.mem_cons.mp hy2 with rfl | hy3
          · exact le_trans (hle x (List.mem_cons_self x rest)) (le_of_not_lt hc)
          · exact hle y (List.mem_cons_of_mem x hy3)

/-- The first element attaining the minimum is at distance 0 from `t`
whenever some element has top `t`; in particular its `top` is `t`. -/
theorem pyMinByAbsTop_self (out : List Element) (e : Element) (he : e ∈ out) :
    ∃ c, pyMinByAbsTop out e.top = some c ∧ c.top = e.top := by
  cases out with
  | nil => cases he
  | cons x rest =>
    rcases foldlMin_spec e.top rest x with ⟨hmem, hle⟩
    refine ⟨_, rfl, ?_⟩
    have h0 := hle e he
    rw [sub_self, Int.natAbs_zero, Nat.le_zero, Int.natAbs_eq_zero,
      sub_eq_zero] at h0
    exact h0

/-- The re-alignment loop of `get_middle_section_broad` is the identity:
the minimization runs over the whole snapshot, which contains the element
itself at vertical distance 0, so every element's `top` is reset to its
own value. -/
theorem realignTops_eq_self (out : List Element) : realignTops out = out := by
  rw [realignTops]
  have h : ∀ e ∈ out,
      (if 173 < e.left ∧ e.left < 183 then e
       else
        match pyMinByAbsTop out e.top with
        | some c => { e with top := c.top }
        | none => e) = e := by
    intro e he
    by_cases hal : 173 < e.left ∧ e.left < 183
    · rw [if_pos hal]
    · rw [if_neg hal]
      rcases pyMinByAbsTop_self out e he with ⟨c, hc, htop⟩
      rw [hc]
      dsimp only
      rw [htop]
  rw [List.map_congr_left h, List.map_id']

/-- The left-aligned element and the misaligned element of the C4
failing input. -/
def alignedElem : Element :=
  { elem_type := ElemType.text, left := 178, top := 100, width := 50,
    height := 10, text := "Only report the actions" }

def outlierElem : Element :=
  { elem_type := ElemType.text, left := 300, top := 103, width := 50,
    height := 10, text := "- Contacted the other party" }

/-- C4 (code bug): the re-alignment step never changes any element.  The
comment at line 518 says "Find closest element that aligned to the left",
but line 519 minimizes over all of `out_copy`, which contains the element
itself at distance 0, so the step is the identity.  On the failing input
the misaligned element (left = 300, outside (173, 183)) keeps its top 103
instead of being reset to 100, the top of its (unique) left-aligned
neighbour. -/
theorem realignTops_noop_bug :
    (∀ out : List Element, realignTops out = out) ∧
    (173 < alignedElem.left ∧ alignedElem.left < 183) ∧
    ¬(173 < outlierElem.left ∧ outlierElem.left < 183) ∧
    alignedElem.top = 100 ∧ outlierElem.top = 103 ∧
    realignTops [alignedElem, outlierElem] = [alignedElem, outlierElem] := by
  refine ⟨realignTops_eq_self, by decide, by decide, rfl, rfl,
    realignTops_eq_self _⟩

/-! ### The variable-name triangulation (C8) -/

/-- The texts of the elements strictly between the two label elements
horizontally and within 5px of the left label's row. -/
def vnCandidates (unit : List Element) (el er : Element) : List String :=
  (unit.filter (fun e => decide (el.left < e.left ∧ e.left < er.left ∧
    el.top - 5 < e.top ∧ e.top < el.top + 5))).map Element.text

/-- C8: once the "Variable Name:" and "Length:" label elements are
located, `get_variable_name` collects the element texts strictly between
them horizontally and within 5px of the left label's row; exactly one
candidate is returned as the variable name, and any other number of
candidates raises an assertion error whose message names the offending
texts. -/
theorem get_variable_name_spec (unit : List Element) (el er : Element)
    (hle : get_elem_by_text unit "Variable Name:" = some el)
    (hre : get_elem_by_text unit "Length:" = some er) :
    (∀ s, vnCandidates unit el er = [s] → get_variable_name unit = .ok s) ∧
    ((vnCandidates unit el er).length ≠ 1 →
      get_variable_name unit =
        .error (.assert (vnErrMsg el.left er.left el.top
          (vnCandidates unit el er)))) := by
  have h1 : lookupE unit "Variable Name:" = .ok el := by rw [lookupE, hle]
  have h2 : lookupE unit "Length:" = .ok er := by rw [lookupE, hre]
  constructor
  · intro s hs
    unfold get_variable_name
    rw [h1, h2]
    dsimp only
    rw [show (unit.filter (fun e => decide (el.left < e.left ∧ e.left < er.left ∧
        el.top - 5 < e.top ∧ e.top < el.top + 5))).map Element.text =
      vnCandidates unit el er from rfl, hs]
  · intro hlen
    unfold get_variable_name
    rw [h1, h2]
    dsimp only
    rw [show (unit.filter (fun e => decide (el.left < e.left ∧ e.left < er.left ∧
        el.top - 5 < e.top ∧ e.top < el.top + 5))).map Element.text =
      vnCandidates unit el er from rfl]
    cases hout : vnCandidates unit el er with
    | nil => rfl
    | cons a tail =>
      cases tail with
      | nil =>
        rw [hout] at hlen
        simp at hlen
      | cons b t2 => rfl

def vnLabelElem : Element :=
  { elem_type := ElemType.text, left := 36, top := 100, width := 100,
    height := 10, text := "Variable Name:" }

def nameElem : Element :=
  { elem_type := ElemType.text, left := 150, top := 100, width := 50,
    height := 10, text := "PUMFID" }

def lengthLabelElem : Element :=
  { elem_type := ElemType.text, left := 260, top := 100, width := 60,
    height := 10, text := "Length: 8" }

/-- Witness for `get_variable_name_spec`: a unit in which exactly one
element sits between the two labels. -/
theorem get_variable_name_spec_witness :
    get_variable_name [vnLabelElem, nameElem, lengthLabelElem] = .ok "PUMFID" :=
  (get_variable_name_spec [vnLabelElem, nameElem, lengthLabelElem]
    vnLabelElem lengthLabelElem rfl rfl).1 "PUMFID" rfl

/-! ### The per-unit driver loop and serialization guard (C9) -/

/-- Constant `NON_ANSWER_VARS`: the two variables with no answer table. -/
def NON_ANSWER_VARS : List String := ["PUMFID", "WTPP"]

/-- The blank-text element appended for the `VERDATE` repair. -/
def blankAnswerElem (ah : Element) : Element :=
  { elem_type := ElemType.text, left := ah.left, top := ah.top + 10,
    width := 10, height := 10, text := "" }

/-- Function `insert_blank_answer_categories`: append a blank text element just
below the answer-category heading (the `VERDATE` repair). -/
def insert_blank_answer_categories (unit : List Element) :
    Except PyErr (List Element) :=
  match lookupE unit "Answer Categories" with
  | .error err => .error err
  | .ok ah => .ok (unit ++ [blankAnswerElem ah])

/-- One output record (`q` dict) of the pipeline. -/
structure Record where
  variable_name : String
  length : String
  position : String
  question_name : String
  concept : String
  question_text : String
  universeVal : String
  note : String
  source : String
  answers : Option AnswerOut
deriving DecidableEq, Repr

/-- The body of the per-unit loop (lines 936-953): extract all fields of
one unit, with the `NON_ANSWER_VARS` and `VERDATE` special cases. -/
def processUnit (unit : List Element) : Except PyErr Record :=
  match get_variable_name unit with
  | .error err => .error err
  | .ok vn =>
    match get_length unit with
    | .error err => .error err
    | .ok len =>
      match get_position unit with
      | .error err => .error err
      | .ok pos =>
        match get_question_name unit with
        | .error err => .error err
        | .ok qn =>
          match get_concept unit with
          | .error err => .error err
          | .ok con =>
            match get_question_text unit with
            | .error err => .error err
            | .ok qt =>
              match get_universe unit with
              | .error err => .error err
              | .ok uni =>
                match get_note unit with
                | .error err => .error err
                | .ok note =>
                  match (if vn ∈ NON_ANSWER_VARS then .ok ""
                         else get_source unit : Except PyErr String) with
                  | .error err => .error err
                  | .ok src =>
                    match (if vn = "VERDATE" then
                             insert_blank_answer_categories unit
                           else .ok unit : Except PyErr (List Element)) with
                    | .error err => .error err
                    | .ok unitF =>
                      match (if vn ∈ NON_ANSWER_VARS then .ok none
                             else (get_answer_fields unitF).map some :
                              Except PyErr (Option AnswerOut)) with
                      | .error err => .error err
                      | .ok ans =>
                        .ok { variable_name := vn, length := len,
                              position := pos, question_name := qn,
                              concept := con, question_text := qt,
                              universeVal := uni, note := note, source := src,
                              answers := ans }

/-- The driver loop: process the units in order; any failure is wrapped
in an exception naming the offending unit and aborts the run. -/
def runPipeline : List (List Element) → Except PyErr (List Record)
  | [] => .ok []
  | u :: rest =>
    match processUnit u with
    | .error e => .error (.unitError u e)
    | .ok r =>
      match runPipeline rest with
      | .error e => .error e
      | .ok rs => .ok (r :: rs)

/-- The serialized output (`json.dump` at line 982): written only when
the whole run succeeded. -/
def pipelineOutput (us : List (List Element)) : Option (List Record) :=
  (runPipeline us).toOption

/-- C9: the pipeline persists an output collection only when every unit
was processed successfully, and if the extraction of some unit fails
(after any prefix of successful units), the whole run aborts with an
error naming that unit, and nothing is persisted. -/
theorem runPipeline_spec :
    (∀ (us : List (List Element)) (rs : List Record),
      runPipeline us = .ok rs →
      (∀ u ∈ us, ∃ r, processUnit u = .ok r) ∧ pipelineOutput us = some rs) ∧
    (∀ (pre : List (List Element)) (u : List Element)
      (post : List (List Element)) (e : PyErr),
      (∀ v ∈ pre, ∃ r, processUnit v = .ok r) →
      processUnit u = .error e →
      runPipeline (pre ++ u :: post) = .error (.unitError u e) ∧
        pipelineOutput (pre ++ u :: post) = none) := by
  constructor
  · intro us
    induction us with
    | nil =>
      intro rs h
      exact ⟨fun u hu => absurd hu (List.not_mem_nil u),
        by rw [pipelineOutput, h]; rfl⟩
    | cons u rest ih =>
      intro rs h
      rw [runPipeline] at h
      cases hp : processUnit u with
      | error e => rw [hp] at h; cases h
      | ok r =>
        rw [hp] at h
        cases hr : runPipeline rest with
        | error e => rw [hr] at h; cases h
        | ok rs0 =>
          rw [hr] at h
          rcases ih rs0 hr with ⟨hall, _⟩
          refine ⟨?_, ?_⟩
          · intro v hv
            rcases List.mem_cons.mp hv with rfl | hv2
            · exact ⟨r, hp⟩
            · exact hall v hv2
          · rw [pipelineOutput, runPipeline, hp, hr]
            cases h
            rfl
  · intro pre
    induction pre with
    | nil =>
      intro u post e _ hu
      have hrun : runPipeline ([] ++ u :: post) = .error (.unitError u e) := by
        rw [List.nil_append, runPipeline, hu]
      exact ⟨hrun, by rw [pipelineOutput, hrun]; rfl⟩
    | cons v pre ih =>
      intro u post e hpre hu
      rcases hpre v (List.mem_cons_self v pre) with ⟨r, hv⟩
      have hrest := ih u post e
        (fun w hw => hpre w (List.mem_cons_of_mem v hw)) hu
      have hrun : runPipeline ((v :: pre) ++ u :: post) =
          .error (.unitError u e) := by
        rw [List.cons_append, runPipeline, hv, hrest.1]
      exact ⟨hrun, by rw [pipelineOutput, hrun]; rfl⟩

/-- Witness for `runPipeline_spec`: a run whose single (empty) unit fails
during variable-name extraction; nothing is persisted and the error
names the unit. -/
theorem runPipeline_spec_witness :
    runPipeline [[]] =
      .error (.unitError [] (.attr "NoneType object has no attribute")) ∧
    pipelineOutput [[]] = none :=
  runPipeline_spec.2 [] [] [] (.attr "NoneType object has no attribute")
    (fun v hv => absurd hv (List.not_mem_nil v)) rfl

/-! ### Label lookup totality (C10) -/

/-- Whether a `PyErr` is an `AttributeError` (a dereference of the `None`
returned by `get_elem_by_text`). -/
def PyErr.isAttr : PyErr → Bool
  | .attr _ => true
  | _ => false

def exceptIsAttr {α : Type} : Except PyErr α → Bool
  | .error e => e.isAttr
  | .ok _ => false

/-- Some element of the unit contains the label text. -/
def hasLabel (unit : List Element) (t : String) : Prop :=
  ∃ e ∈ unit, strContains e.text t = true

theorem get_elem_by_text_none_iff (t : String) :
    ∀ unit : List Element,
      get_elem_by_text unit t = none ↔
        ∀ e ∈ unit, strContains e.text t = false := by
  intro unit
  induction unit with
  | nil => simp [get_elem_by_text]
  | cons e rest ih =>
    rw [get_elem_by_text]
    by_cases hc : strContains e.text t
    · rw [if_pos hc]
      constructor
      · intro h
        cases h
      · intro hall
        rw [hall e (List.mem_cons_self e rest)] at hc
        cases hc
    · rw [if_neg hc]
      rw [ih]
      constructor
      · intro hall x hx
        rcases List.mem_cons.mp hx with rfl | hx2
        · exact Bool.eq_false_iff.mpr hc
        · exact hall x hx2
      · intro hall x hx
        exact hall x (List.mem_cons_of_mem e hx)

theorem lookupE_ok_of_hasLabel (unit : List Element) (t : String)
    (h : hasLabel unit t) : ∃ e, lookupE unit t = .ok e := by
  cases hg : get_elem_by_text unit t with
  | some e => exact ⟨e, by rw [lookupE, hg]⟩
  | none =>
    rcases h with ⟨e, he, hc⟩
    rw [(get_elem_by_text_none_iff t unit).mp hg e he] at hc
    cases hc

theorem parseIntPy_err (s : String) (e : PyErr)
    (h : parseIntPy s = .error e) : e.isAttr = false := by
  unfold parseIntPy at h
  cases hp : parseIntChars (trimChars s.data) with
  | some n => rw [hp] at h; cases h
  | none => rw [hp] at h; cases h; rfl

theorem parseFloatPy_err (s : String) (e : PyErr)
    (h : parseFloatPy s = .error e) : e.isAttr = false := by
  unfold parseFloatPy at h
  cases hp : parseFloatChars (trimChars s.data) with
  | some n => rw [hp] at h; cases h
  | none => rw [hp] at h; cases h; rfl

theorem sumMapInt_err :
    ∀ (l : List String) (acc : Int) (e : PyErr),
      sumMapInt acc l = .error e → e.isAttr = false := by
  intro l
  induction l with
  | nil => intro acc e h; cases h
  | cons s rest ih =>
    intro acc e h
    rw [sumMapInt] at h
    cases hp : parseIntPy s with
    | ok n => rw [hp] at h; exact ih _ e h
    | error e0 =>
      rw [hp] at h
      cases h
      exact parseIntPy_err s e hp

theorem sumMapFloat_err :
    ∀ (l : List String) (acc : PyFloat) (e : PyErr),
      sumMapFloat acc l = .error e → e.isAttr = false := by
  intro l
  induction l with
  | nil => intro acc e h; cases h
  | cons s rest ih =>
    intro acc e h
    rw [sumMapFloat] at h
    cases hp : parseFloatPy s with
    | ok n => rw [hp] at h; exact ih _ e h
    | error e0 =>
      rw [hp] at h
      cases h
      exact parseFloatPy_err s e hp

theorem checkTotalInt_err (k : String) (vals : List String) (tot : String)
    (tol : Nat) (e : PyErr) (h : checkTotalInt k vals tot tol = .error e) :
    e.isAttr = false := by
  unfold checkTotalInt at h
  cases hs : sumMapInt 0 vals with
  | error e0 =>
    rw [hs] at h
    cases h
    exact sumMapInt_err vals 0 e hs
  | ok s =>
    rw [hs] at h
    cases ht : parseIntPy tot with
    | error e0 =>
      rw [ht] at h
      cases h
      exact parseIntPy_err tot e ht
    | ok t =>
      rw [ht] at h
      dsimp only at h
      by_cases hd : (s - t).natAbs ≤ tol
      · rw [if_pos hd] at h; cases h
      · rw [if_neg hd] at h; cases h; rfl

theorem checkTotalPerc_err (vals : List String) (tot : String) (e : PyErr)
    (h : checkTotalPerc vals tot = .error e) : e.isAttr = false := by
  unfold checkTotalPerc at h
  cases hs : sumMapFloat (PyFloat.ofInt 0) vals with
  | error e0 =>
    rw [hs] at h
    cases h
    exact sumMapFloat_err vals _ e hs
  | ok s =>
    rw [hs] at h
    cases ht : parseFloatPy tot with
    | error e0 =>
      rw [ht] at h
      cases h
      exact parseFloatPy_err tot e ht
    | ok t =>
      rw [ht] at h
      dsimp only at h
      by_cases hd : PyFloat.le (round2 (s.sub t).absVal) percTol
      · rw [if_pos hd] at h; cases h
      · rw [if_neg hd] at h; cases h; rfl

theorem mergeGo_err :
    ∀ (l : List (AnsTok × CodeTok)) (xs ys : List String) (e : PyErr),
      mergeGo l xs ys = .error e → e.isAttr = false := by
  intro l
  induction l with
  | nil =>
    intro xs ys e h
    rw [mergeGo] at h
    by_cases hl : xs.length = ys.length
    · rw [if_pos hl] at h; cases h
    · rw [if_neg hl] at h; cases h; rfl
  | cons q rest ih =>
    intro xs ys e h
    obtain ⟨a, c⟩ := q
    cases a with
    | pb =>
      cases c with
      | pb => exact ih xs ys e h
      | brk => cases h; rfl
      | str c' => cases h; rfl
    | str a' =>
      cases c with
      | pb => cases h; rfl
      | brk =>
        rw [mergeGo] at h
        cases hg : xs.getLast? with
        | none => rw [hg] at h; cases h; rfl
        | some last => rw [hg] at h; exact ih _ _ e h
      | str c' => exact ih _ _ e h

theorem mergeAC_err (A : List AnsTok) (C : List CodeTok) (e : PyErr)
    (h : mergeAC A C = .error e) : e.isAttr = false :=
  mergeGo_err _ [] [] e h

theorem finishTotals_err (p : PreOut) (e : PyErr)
    (h : finishTotals p = .error e) : e.isAttr = false := by
  unfold finishTotals at h
  cases h1 : p.frequency.getLast? with
  | none => rw [h1] at h; cases h; rfl
  | some ft =>
    rw [h1] at h
    cases h2 : p.weighted_frequency.getLast? with
    | none => rw [h2] at h; cases h; rfl
    | some wt =>
      rw [h2] at h
      cases h3 : p.percent.getLast? with
      | none => rw [h3] at h; cases h; rfl
      | some pt =>
        rw [h3] at h
        dsimp only at h
        cases h4 : checkTotalInt "frequency" p.frequency.dropLast ft 0 with
        | error e0 =>
          rw [h4] at h
          cases h
          exact checkTotalInt_err _ _ _ _ e h4
        | ok u1 =>
          rw [h4] at h
          cases h5 : checkTotalInt "weighted_frequency"
              p.weighted_frequency.dropLast wt 1 with
          | error e0 =>
            rw [h5] at h
            cases h
            exact checkTotalInt_err _ _ _ _ e h5
          | ok u2 =>
            rw [h5] at h
            cases h6 : checkTotalPerc p.percent.dropLast pt with
            | error e0 =>
              rw [h6] at h
              cases h
              exact checkTotalPerc_err _ _ e h6
            | ok u3 => rw [h6] at h; cases h

theorem answerPre_no_attr (unit : List Element)
    (hA : hasLabel unit "Answer Categories") (hC : hasLabel unit "Code")
    (hF : hasLabel unit "Frequency") (hW : hasLabel unit "Weighted Frequency")
    (hP : hasLabel unit "%") (e : PyErr) (h : answerPre unit = .error e) :
    e.isAttr = false := by
  obtain ⟨eA, hA'⟩ := lookupE_ok_of_hasLabel unit _ hA
  obtain ⟨eC, hC'⟩ := lookupE_ok_of_hasLabel unit _ hC
  obtain ⟨eF, hF'⟩ := lookupE_ok_of_hasLabel unit _ hF
  obtain ⟨eW, hW'⟩ := lookupE_ok_of_hasLabel unit _ hW
  obtain ⟨eP, hP'⟩ := lookupE_ok_of_hasLabel unit _ hP
  unfold answerPre at h
  rw [hA'] at h
  dsimp only at h
  rw [hC'] at h
  dsimp only at h
  rw [hF', hW', hP'] at h
  dsimp only at h
  split at h
  · split at h
    · rename_i err heq
      cases h
      exact mergeAC_err _ _ e heq
    · split at h
      · cases h
      · cases h; rfl
  · cases h; rfl

theorem get_answer_fields_no_attr (unit : List Element)
    (hA : hasLabel unit "Answer Categories") (hC : hasLabel unit "Code")
    (hF : hasLabel unit "Frequency") (hW : hasLabel unit "Weighted Frequency")
    (hP : hasLabel unit "%") :
    exceptIsAttr (get_answer_fields unit) = false := by
  rw [get_answer_fields]
  cases hp : answerPre unit with
  | error e =>
    exact answerPre_no_attr unit hA hC hF hW hP e hp
  | ok pre =>
    dsimp only [Except.bind]
    cases hf : finishTotals pre with
    | error e => exact finishTotals_err pre e hf
    | ok out => rfl

/-- C10: `get_elem_by_text` returns `None` exactly when no element of
the unit contains the label, and otherwise the first containing element;
each banded extractor dereferences this without a `None` check, so under
the precondition that its label texts occur in the unit the
`None`-dereference (`AttributeError`) branch is unreachable: the two
middle-section extractors then always succeed, and `get_variable_name`
and `get_answer_fields` can only fail with their own (non-attribute)
assertion/validation errors. -/
theorem get_elem_by_text_spec :
    (∀ (unit : List Element) (t : String),
      get_elem_by_text unit t = none ↔
        ∀ e ∈ unit, strContains e.text t = false) ∧
    (∀ (t : String) (u1 : List Element) (e : Element) (u2 : List Element),
      strContains e.text t = true →
      (∀ x ∈ u1, strContains x.text t = false) →
      get_elem_by_text (u1 ++ e :: u2) t = some e) ∧
    (∀ (unit : List Element) (top bottom : String),
      hasLabel unit top → hasLabel unit bottom →
      (∃ s, get_middle_section unit top bottom = .ok s) ∧
      (∃ s, get_middle_section_broad unit top bottom = .ok s)) ∧
    (∀ unit : List Element,
      hasLabel unit "Variable Name:" → hasLabel unit "Length:" →
      exceptIsAttr (get_variable_name unit) = false) ∧
    (∀ unit : List Element,
      hasLabel unit "Answer Categories" → hasLabel unit "Code" →
      hasLabel unit "Frequency" → hasLabel unit "Weighted Frequency" →
      hasLabel unit "%" →
      exceptIsAttr (get_answer_fields unit) = false) := by
  refine ⟨fun unit t => get_elem_by_text_none_iff t unit, ?_, ?_, ?_,
    get_answer_fields_no_attr⟩
  · intro t u1
    induction u1 with
    | nil =>
      intro e u2 hc _
      rw [List.nil_append, get_elem_by_text, if_pos hc]
    | cons x rest ih =>
      intro e u2 hc hclean
      rw [List.cons_append, get_elem_by_text,
        if_neg (Bool.eq_false_iff.mp (hclean x (List.mem_cons_self x rest)))]
      exact ih e u2 hc (fun y hy => hclean y (List.mem_cons_of_mem x hy))
  · intro unit top bottom h1 h2
    obtain ⟨e1, he1⟩ := lookupE_ok_of_hasLabel unit top h1
    obtain ⟨e2, he2⟩ := lookupE_ok_of_hasLabel unit bottom h2
    constructor
    · cases hm : get_middle_section unit top bottom with
      | ok s => exact ⟨s, rfl⟩
      | error e =>
        unfold get_middle_section at hm
        rw [he1, he2] at hm
        cases hm
    · cases hm : get_middle_section_broad unit top bottom with
      | ok s => exact ⟨s, rfl⟩
      | error e =>
        unfold get_middle_section_broad at hm
        rw [he1, he2] at hm
        cases hm
  · intro unit h1 h2
    obtain ⟨e1, he1⟩ := lookupE_ok_of_hasLabel unit _ h1
    obtain ⟨e2, he2⟩ := lookupE_ok_of_hasLabel unit _ h2
    unfold get_variable_name
    rw [he1, he2]
    dsimp only
    cases hout : (unit.filter (fun e =>
        decide (e1.left < e.left ∧ e.left < e2.left ∧
          e1.top - 5 < e.top ∧ e.top < e1.top + 5))).map Element.text with
    | nil => rfl
    | cons a tail =>
      cases tail with
      | nil => rfl
      | cons b t2 => rfl

/-- Witness for `get_elem_by_text_spec`: the precondition discharged on
concrete units. -/
theorem get_elem_by_text_spec_witness :
    (∃ s, get_middle_section [vnLabelElem, nameElem, lengthLabelElem]
      "Variable Name:" "Length:" = .ok s) ∧
    exceptIsAttr (get_answer_fields answerCounterUnit) = false := by
  constructor
  · exact (get_elem_by_text_spec.2.2.1 [vnLabelElem, nameElem, lengthLabelElem]
      "Variable Name:" "Length:"
      ⟨vnLabelElem, by decide, by decide⟩
      ⟨lengthLabelElem, by decide, by decide⟩).1
  · exact get_elem_by_text_spec.2.2.2.2 answerCounterUnit
      ⟨mkTextElem 100 100 50 "Answer Categories", by decide, by decide⟩
      ⟨mkTextElem 100 200 30 "Code", by decide, by decide⟩
      ⟨mkTextElem 100 300 40 "Frequency", by decide, by decide⟩
      ⟨mkTextElem 100 400 60 "Weighted Frequency", by decide, by decide⟩
      ⟨mkTextElem 100 500 10 "%", by decide, by decide⟩

end ClpsSurveyVars









